import Mathlib

/-!
# Coordination protocols of C_Avancado/Threads

A verification development for the three programs under `src/Threads`:
`consumidor_cond.c` (bounded producer-consumer channel with shutdown),
`leitor_escritor.c` (reader-writer gate) and `jantar_dos_filosofos.c` (dining
philosophers). Each program is embedded as a transition system: the state holds
the global variables, the owner of every mutex and one program counter per
thread; a step executes one statement of one thread; `pthread_cond_wait` releases
the mutex and parks the thread, which a signal, a broadcast or a spurious wake-up
moves on to re-acquire the mutex. Program counters are named after source lines.

The first part holds the definitions, the second part the theorems.
-/

set_option linter.unusedTactic false
set_option linter.unnecessarySeqFocus false
set_option linter.unreachableTactic false
set_option linter.unusedVariables false

namespace Threads

/-! ## Definitions -/

/-- Pointwise update of an array or of a per-thread table. -/
def upd {α : Type} (f : Nat → α) (i : Nat) (v : α) : Nat → α :=
  fun j => if j = i then v else f j

/-- Sum of f over the indices below n. -/
def soma (n : Nat) (f : Nat → Nat) : Nat :=
  match n with
  | 0 => 0
  | n + 1 => soma n f + f n

namespace ProdCons

/-- The compile-time constants of consumidor_cond.c (lines 25-29). -/
structure Config where
  MAX_PROD : Nat
  LIMIT_PROD : Nat
  NUM_PROD : Nat
  NUM_CONS : Nat

/-- The constants as shipped: MAX_PROD 21, LIMIT_PROD 10, NUM_PROD 10, NUM_CONS 7. -/
def shipped : Config := ⟨21, 10, 10, 7⟩

/-- Thread identities: producer i, consumer i, and the thread running main. -/
inductive Tid where
  | prod (i : Nat)
  | cons (i : Nat)
  | principal
  deriving DecidableEq, Repr

/-- Program counter of a thread running produtor; a label names the line of the
next statement to execute. parked and woken are the two phases inside
pthread_cond_wait of line 54 (mutex released and waiting; signalled and
re-acquiring the mutex). ret is the state after return. -/
inductive PcProd where
  | l50 | l53 | l54 | parked | woken | l57 | l63 | l66 | l69 | l71 | l77 | ret
  deriving DecidableEq, Repr

/-- Program counter of a thread running consumidor (same conventions; parked and
woken are inside pthread_cond_wait of line 104). -/
inductive PcCons where
  | l88 | l91 | l94 | l95 | l97 | l98 | l102 | l104 | parked | woken | l108 | l113 | l116 | ret
  deriving DecidableEq, Repr

/-- Program counter of main from the first join loop on (lines 155-179). -/
inductive PcMain where
  | join_prod (i : Nat)
  | l159 | l160 | l161 | l169 | l170 | l171
  | join_cons (i : Nat)
  | ret
  deriving DecidableEq, Repr

/-- Global variables of consumidor_cond.c, the two mutexes (with their owner),
one program counter per thread, and two history logs: produced records
(position, value) of every write-and-advance of lines 57-60 in order, consumed
records (position, value) of every read-and-advance of lines 108-110 in order. -/
structure State where
  len_cons : Nat
  len_prod : Nat
  fim_flag : Nat
  prod_cont : Nat → Nat
  produtos : Nat → Int
  mutex_m : Option Tid
  fim_m : Option Tid
  pcP : Nat → PcProd
  pcC : Nat → PcCons
  pcM : PcMain
  produced : List (Nat × Int)
  consumed : List (Nat × Int)

/-- State in which main has initialised everything and created the threads
(lines 34-41 and 129-152): every thread is at its first lock, main is about to
join the first producer. A thread that is created later in the loops of lines
143-152 behaves as one that exists and has not been scheduled yet. -/
def init : State :=
  { len_cons := 0, len_prod := 0, fim_flag := 0,
    prod_cont := fun _ => 0, produtos := fun _ => 0,
    mutex_m := none, fim_m := none,
    pcP := fun _ => .l50, pcC := fun _ => .l88, pcM := .join_prod 0,
    produced := [], consumed := [] }

/-- pthread_cond_signal on prod_cond: wakes the parked producer chosen by the
scheduler; does nothing only when no producer is parked. -/
def signal_prod (cfg : Config) (pc : Nat → PcProd) (w : Option Nat) : Option (Nat → PcProd) :=
  match w with
  | some j => if j < cfg.NUM_PROD ∧ pc j = .parked then some (upd pc j .woken) else none
  | none => if ∀ j, j < cfg.NUM_PROD → pc j ≠ .parked then some pc else none

/-- pthread_cond_signal on cons_cond: wakes the parked consumer chosen by the
scheduler; does nothing only when no consumer is parked. -/
def signal_cons (cfg : Config) (pc : Nat → PcCons) (w : Option Nat) : Option (Nat → PcCons) :=
  match w with
  | some j => if j < cfg.NUM_CONS ∧ pc j = .parked then some (upd pc j .woken) else none
  | none => if ∀ j, j < cfg.NUM_CONS → pc j ≠ .parked then some pc else none

/-- pthread_cond_broadcast on cons_cond: every parked consumer is woken. -/
def broadcast_cons (pc : Nat → PcCons) : Nat → PcCons :=
  fun j => if pc j = .parked then .woken else pc j

/-- One step of thread i running produtor (lines 43-79). r is the value rand()
returns at line 57, w the waiter the signal of line 66 wakes. A result of none
means the thread cannot move (mutex taken, parked, or returned). The step at l57
is the write of line 57 together with the index advance of line 60 (only a printf
lies between them, inside the critical section); it is the produce event that
the produced log records. The counter prod_cont is an unsigned int: the
increment of line 63 wraps modulo 2^32. -/
def produtor (cfg : Config) (i r : Nat) (w : Option Nat) (s : State) : Option State :=
  match s.pcP i with
  | .l50 =>
    if s.mutex_m = none then
      some { s with mutex_m := some (.prod i), pcP := upd s.pcP i .l53 }
    else none
  | .l53 =>
    if (s.len_prod + 1) % cfg.MAX_PROD = s.len_cons then
      some { s with pcP := upd s.pcP i .l54 }
    else some { s with pcP := upd s.pcP i .l57 }
  | .l54 => some { s with mutex_m := none, pcP := upd s.pcP i .parked }
  | .parked => none
  | .woken =>
    if s.mutex_m = none then
      some { s with mutex_m := some (.prod i), pcP := upd s.pcP i .l53 }
    else none
  | .l57 =>
    some { s with
      produtos := upd s.produtos s.len_prod ((r % 10 + 1 : Nat) : Int),
      produced := s.produced ++ [(s.len_prod, ((r % 10 + 1 : Nat) : Int))],
      len_prod := (s.len_prod + 1) % cfg.MAX_PROD,
      pcP := upd s.pcP i .l63 }
  | .l63 =>
    some { s with
      prod_cont := upd s.prod_cont i ((s.prod_cont i + 1) % 2 ^ 32),
      pcP := upd s.pcP i .l66 }
  | .l66 =>
    match signal_cons cfg s.pcC w with
    | some pc => some { s with pcC := pc, pcP := upd s.pcP i .l69 }
    | none => none
  | .l69 =>
    if s.prod_cont i = cfg.LIMIT_PROD then
      some { s with pcP := upd s.pcP i .l71 }
    else some { s with pcP := upd s.pcP i .l77 }
  | .l71 => some { s with mutex_m := none, pcP := upd s.pcP i .ret }
  | .l77 => some { s with mutex_m := none, pcP := upd s.pcP i .l50 }
  | .ret => none

/-- One step of thread i running consumidor (lines 81-118). w is the waiter the
signal of line 113 wakes. The step at l108 is the read of produtos[len_cons] in
the printf of line 108 together with the index advance of line 110; it is the
consume event that the consumed log records. -/
def consumidor (cfg : Config) (i : Nat) (w : Option Nat) (s : State) : Option State :=
  match s.pcC i with
  | .l88 =>
    if s.mutex_m = none then
      some { s with mutex_m := some (.cons i), pcC := upd s.pcC i .l91 }
    else none
  | .l91 =>
    if s.len_cons = s.len_prod then some { s with pcC := upd s.pcC i .l94 }
    else some { s with pcC := upd s.pcC i .l108 }
  | .l94 =>
    if s.fim_m = none then
      some { s with fim_m := some (.cons i), pcC := upd s.pcC i .l95 }
    else none
  | .l95 =>
    if s.fim_flag ≠ 0 then some { s with pcC := upd s.pcC i .l97 }
    else some { s with pcC := upd s.pcC i .l102 }
  | .l97 => some { s with fim_m := none, pcC := upd s.pcC i .l98 }
  | .l98 => some { s with mutex_m := none, pcC := upd s.pcC i .ret }
  | .l102 => some { s with fim_m := none, pcC := upd s.pcC i .l104 }
  | .l104 => some { s with mutex_m := none, pcC := upd s.pcC i .parked }
  | .parked => none
  | .woken =>
    if s.mutex_m = none then
      some { s with mutex_m := some (.cons i), pcC := upd s.pcC i .l91 }
    else none
  | .l108 =>
    some { s with
      consumed := s.consumed ++ [(s.len_cons, s.produtos s.len_cons)],
      len_cons := (s.len_cons + 1) % cfg.MAX_PROD,
      pcC := upd s.pcC i .l113 }
  | .l113 =>
    match signal_prod cfg s.pcP w with
    | some pc => some { s with pcP := pc, pcC := upd s.pcC i .l116 }
    | none => none
  | .l116 => some { s with mutex_m := none, pcC := upd s.pcC i .l88 }
  | .ret => none

/-- One step of main from line 155 on: join every producer, set fim_flag under
fim_m, broadcast cons_cond under mutex_m, join every consumer. -/
def main (cfg : Config) (s : State) : Option State :=
  match s.pcM with
  | .join_prod k =>
    if k < cfg.NUM_PROD then
      if s.pcP k = .ret then some { s with pcM := .join_prod (k + 1) } else none
    else some { s with pcM := .l159 }
  | .l159 =>
    if s.fim_m = none then some { s with fim_m := some .principal, pcM := .l160 }
    else none
  | .l160 => some { s with fim_flag := 1, pcM := .l161 }
  | .l161 => some { s with fim_m := none, pcM := .l169 }
  | .l169 =>
    if s.mutex_m = none then some { s with mutex_m := some .principal, pcM := .l170 }
    else none
  | .l170 => some { s with pcC := broadcast_cons s.pcC, pcM := .l171 }
  | .l171 => some { s with mutex_m := none, pcM := .join_cons 0 }
  | .join_cons k =>
    if k < cfg.NUM_CONS then
      if s.pcC k = .ret then some { s with pcM := .join_cons (k + 1) } else none
    else some { s with pcM := .ret }
  | .ret => none

/-- What the scheduler can choose: a step of a producer, of a consumer or of
main, or a spurious wake-up of a thread parked in pthread_cond_wait. -/
inductive Action where
  | prod (i r : Nat) (w : Option Nat)
  | cons (i : Nat) (w : Option Nat)
  | principal
  | spurious_prod (i : Nat)
  | spurious_cons (i : Nat)
  deriving DecidableEq, Repr

/-- One step of the whole program under the scheduler choice a. -/
def step (cfg : Config) (s : State) : Action → Option State
  | .prod i r w => if i < cfg.NUM_PROD then produtor cfg i r w s else none
  | .cons i w => if i < cfg.NUM_CONS then consumidor cfg i w s else none
  | .principal => main cfg s
  | .spurious_prod i =>
    if s.pcP i = .parked then some { s with pcP := upd s.pcP i .woken } else none
  | .spurious_cons i =>
    if s.pcC i = .parked then some { s with pcC := upd s.pcC i .woken } else none

/-- States reachable from init by any interleaving. -/
inductive Reachable (cfg : Config) : State → Prop where
  | init : Reachable cfg init
  | step {s s' : State} (a : Action) : Reachable cfg s → step cfg s a = some s' → Reachable cfg s'

/-- Runs a schedule from s, skipping the choices that are not enabled. -/
def run (cfg : Config) (s : State) : List Action → State
  | [] => s
  | a :: as => run cfg ((step cfg s a).getD s) as

/-- Program counters at which a producer holds mutex_m. -/
def critP : PcProd → Bool
  | .l53 | .l54 | .l57 | .l63 | .l66 | .l69 | .l71 | .l77 => true
  | .l50 | .parked | .woken | .ret => false

/-- Program counters at which a consumer holds mutex_m. -/
def critC : PcCons → Bool
  | .l91 | .l94 | .l95 | .l97 | .l98 | .l102 | .l104 | .l108 | .l113 | .l116 => true
  | .l88 | .parked | .woken | .ret => false

/-- Program counters at which main holds mutex_m. -/
def critM : PcMain → Bool
  | .l170 | .l171 => true
  | .join_prod _ | .l159 | .l160 | .l161 | .l169 | .join_cons _ | .ret => false

/-- Program counters at which a consumer holds fim_m. -/
def fimC : PcCons → Bool
  | .l95 | .l97 | .l102 => true
  | .l88 | .l91 | .l94 | .l98 | .l104 | .parked | .woken | .l108 | .l113 | .l116 | .ret => false

/-- Program counters at which main holds fim_m. -/
def fimM : PcMain → Bool
  | .l160 | .l161 => true
  | .join_prod _ | .l159 | .l169 | .l170 | .l171 | .join_cons _ | .ret => false

/-- Lock discipline: whoever is inside a critical section owns its mutex. -/
structure InvLock (s : State) : Prop where
  prod : ∀ i, critP (s.pcP i) = true → s.mutex_m = some (.prod i)
  cons : ∀ i, critC (s.pcC i) = true → s.mutex_m = some (.cons i)
  principal : critM s.pcM = true → s.mutex_m = some .principal
  fcons : ∀ i, fimC (s.pcC i) = true → s.fim_m = some (.cons i)
  fprincipal : fimM s.pcM = true → s.fim_m = some .principal

/-- Ring-buffer relation between the two indices, the array and the two logs:
the indices are the log lengths modulo the capacity, fewer than MAX_PROD items
are outstanding, the consumed log is the start of the produced log, and every
outstanding item is still in its slot. -/
structure RingData (C lp lc : Nat) (produtos : Nat → Int)
    (produced consumed : List (Nat × Int)) : Prop where
  hp : lp = produced.length % C
  hc : lc = consumed.length % C
  le : consumed.length ≤ produced.length
  lt : produced.length < consumed.length + C
  pre : consumed = produced.take consumed.length
  win : ∀ k, consumed.length ≤ k → k < produced.length →
    produced[k]? = some (k % C, produtos (k % C))
  pos : ∀ k p v, produced[k]? = some (p, v) → p = k % C

/-- Program counters at which a consumer has found the buffer empty and still
holds mutex_m (lines 94-104). -/
def emptyC : PcCons → Bool
  | .l94 | .l95 | .l97 | .l98 | .l102 | .l104 => true
  | .l88 | .l91 | .parked | .woken | .l108 | .l113 | .l116 | .ret => false

/-- Buffer invariant: the ring-buffer relation, a producer about to write has
seen a buffer that is not full, a consumer about to read has seen one that is
not empty, and a consumer in the shutdown test has seen an empty one. -/
structure InvRing (cfg : Config) (s : State) : Prop where
  data : RingData cfg.MAX_PROD s.len_prod s.len_cons s.produtos s.produced s.consumed
  notfull : ∀ i, s.pcP i = .l57 → (s.len_prod + 1) % cfg.MAX_PROD ≠ s.len_cons
  nonempty : ∀ i, s.pcC i = .l108 → s.len_cons ≠ s.len_prod
  empty : ∀ i, emptyC (s.pcC i) = true → s.len_cons = s.len_prod

/-- Program counters of main after the assignment fim_flag = 1 of line 160. -/
def flagSet : PcMain → Bool
  | .l161 | .l169 | .l170 | .l171 | .join_cons _ | .ret => true
  | .join_prod _ | .l159 | .l160 => false

/-- Number of producers main has already joined (lines 155-156). -/
def joined (cfg : Config) : PcMain → Nat
  | .join_prod k => k
  | .l159 | .l160 | .l161 | .l169 | .l170 | .l171 | .join_cons _ | .ret => cfg.NUM_PROD

/-- Program counters of main after the broadcast of line 170. -/
def afterB : PcMain → Bool
  | .l171 | .join_cons _ | .ret => true
  | .join_prod _ | .l159 | .l160 | .l161 | .l169 | .l170 => false

/-- Program counters of a consumer that has read fim_flag as set (lines 97-100). -/
def retC : PcCons → Bool
  | .l97 | .l98 | .ret => true
  | .l88 | .l91 | .l94 | .l95 | .l102 | .l104 | .parked | .woken | .l108 | .l113 | .l116 => false

/-- Program counters of a consumer that has read fim_flag as unset and is on its
way into pthread_cond_wait, or is parked in it (lines 102-104). -/
def waitC : PcCons → Bool
  | .l102 | .l104 | .parked => true
  | .l88 | .l91 | .l94 | .l95 | .l97 | .l98 | .woken | .l108 | .l113 | .l116 | .ret => false

/-- Program counters of a producer whose counter is still below LIMIT_PROD. -/
def below : PcProd → Bool
  | .l50 | .l53 | .l54 | .parked | .woken | .l57 | .l63 | .l77 => true
  | .l66 | .l69 | .l71 | .ret => false

/-- Program counters of a producer that has seen its counter equal LIMIT_PROD. -/
def atLimit : PcProd → Bool
  | .l71 | .ret => true
  | .l50 | .l53 | .l54 | .parked | .woken | .l57 | .l63 | .l66 | .l69 | .l77 => false

/-- Shutdown invariant: fim_flag follows the program counter of main, main has
joined only producers that returned, a consumer on its way out has seen the flag
set, and after the broadcast no consumer is on its way to park or parked. -/
structure InvFlag (cfg : Config) (s : State) : Prop where
  flag1 : flagSet s.pcM = true → s.fim_flag = 1
  flag0 : flagSet s.pcM = false → s.fim_flag = 0
  join : ∀ j, j < joined cfg s.pcM → s.pcP j = .ret
  seen : ∀ i, retC (s.pcC i) = true → s.fim_flag = 1
  woke : ∀ i, afterB s.pcM = true → waitC (s.pcC i) = false

/-- Quota invariant: the per-producer counters follow the producer program
counters and never pass LIMIT_PROD, and once a consumer has returned the buffer
is empty. -/
structure InvQuota (cfg : Config) (s : State) : Prop where
  drained : ∀ i, s.pcC i = .ret → s.len_cons = s.len_prod
  le : ∀ j, s.prod_cont j ≤ cfg.LIMIT_PROD
  lt : ∀ j, below (s.pcP j) = true → s.prod_cont j < cfg.LIMIT_PROD
  eq : ∀ j, atLimit (s.pcP j) = true → s.prod_cont j = cfg.LIMIT_PROD

/-- Items producer j has written so far: its counter, plus the one item written
at line 57 and not yet counted at line 63. -/
def feitos (s : State) (j : Nat) : Nat :=
  s.prod_cont j + (if s.pcP j = .l63 then 1 else 0)

/-- The produced log has one entry per item written by some producer. -/
def InvCount (cfg : Config) (s : State) : Prop :=
  soma cfg.NUM_PROD (feitos s) = s.produced.length

/-- Number of slots in use as the indices show it: (len_prod - len_cons) mod MAX_PROD. -/
def inflight (cfg : Config) (s : State) : Nat :=
  (s.len_prod + cfg.MAX_PROD - s.len_cons) % cfg.MAX_PROD

/-- The slots from len_cons up to but excluding len_prod, in ring order, each
with the value the array holds there. -/
def window (cfg : Config) (s : State) : List (Nat × Int) :=
  (List.range (inflight cfg s)).map
    (fun k => ((s.len_cons + k) % cfg.MAX_PROD, s.produtos ((s.len_cons + k) % cfg.MAX_PROD)))

/-- One item through the buffer: producer p writes and counts it (lines 50-77),
then consumer 0 reads it (lines 88-116). -/
def ciclo (p : Nat) : List Action :=
  List.replicate 7 (.prod p 0 none) ++ List.replicate 5 (.cons 0 none)

/-- A schedule of the shipped program: producer 0 locks mutex_m, finds the buffer
not full and writes one item (lines 50-60). -/
def sched_item : List Action :=
  [.prod 0 6 none, .prod 0 6 none, .prod 0 6 none]

/-- A schedule of the shipped program: every producer emits its LIMIT_PROD items,
each consumed at once by consumer 0; main joins the producers and sets fim_flag
(lines 155-161); then consumer 0 locks mutex_m (line 88) while main is still
before the lock of line 169. -/
def sched_shutdown : List Action :=
  ((List.range 10).map (fun p => (List.replicate 10 (ciclo p)).flatten)).flatten ++
    List.replicate 14 .principal ++ [.cons 0 none]

/-- The schedule sched_shutdown run to the end of the program: consumer 0 finds
the buffer empty and the flag set and returns, main broadcasts (lines 169-171),
and the other six consumers lock, test and return in turn. -/
def sched_full : List Action :=
  sched_shutdown ++ List.replicate 5 (.cons 0 none) ++ List.replicate 3 .principal ++
    ((List.range 6).map (fun c => List.replicate 6 (Action.cons (c + 1) none))).flatten

end ProdCons

namespace LeitorEscritor

/-- The compile-time constants of leitor_escritor.c (lines 23-24). -/
structure Config where
  NUM_LEIT : Nat
  NUM_ESCR : Nat

/-- The constants as shipped: 20 readers, 4 writers. -/
def shipped : Config := ⟨20, 4⟩

/-- Thread identities: reader i and writer i. -/
inductive Tid where
  | leitor (i : Nat)
  | escritor (i : Nat)
  deriving DecidableEq, Repr

/-- Program counter of a thread running leitor; a label names the line of the
next statement to execute. parked and woken are the two phases inside
pthread_cond_wait of line 53. -/
inductive PcLeitor where
  | l40 | l50 | l53 | parked | woken | l56 | l59 | l61 | l64 | l67 | l70 | l73 | l75 | l78 | l81
  deriving DecidableEq, Repr

/-- Program counter of a thread running escritor. -/
inductive PcEscritor where
  | l92 | l98 | l100 | l103 | l105 | l108 | l111 | l117 | l120 | l123
  deriving DecidableEq, Repr

/-- Global variables of leitor_escritor.c, the three mutexes (with the thread
that locked them) and one program counter per thread. -/
structure State where
  num_leitores : Nat
  locket_flag : Nat
  critico : Nat
  mutex_m : Option Tid
  leitura_m : Option Tid
  inanicao_m : Option Tid
  pcL : Nat → PcLeitor
  pcE : Nat → PcEscritor

/-- State after main has initialised the mutexes and created the threads (lines
29-31 and 135-157): every thread is at its first lock. -/
def init : State :=
  { num_leitores := 0, locket_flag := 0, critico := 0,
    mutex_m := none, leitura_m := none, inanicao_m := none,
    pcL := fun _ => .l40, pcE := fun _ => .l92 }

/-- pthread_cond_broadcast on anti_inanicao_cond: every parked reader is woken. -/
def broadcast (pc : Nat → PcLeitor) : Nat → PcLeitor :=
  fun j => if pc j = .parked then .woken else pc j

/-- One step of thread i running leitor (lines 33-83). The counter num_leitores
is an unsigned int: increment and decrement wrap modulo 2^32. mutex_m is locked
by the first reader and unlocked by the last one, whoever that is. -/
def leitor (i : Nat) (s : State) : Option State :=
  match s.pcL i with
  | .l40 =>
    if s.inanicao_m = none then
      some { s with inanicao_m := some (.leitor i), pcL := upd s.pcL i .l50 }
    else none
  | .l50 =>
    if s.locket_flag ≠ 0 then some { s with pcL := upd s.pcL i .l53 }
    else some { s with pcL := upd s.pcL i .l56 }
  | .l53 => some { s with inanicao_m := none, pcL := upd s.pcL i .parked }
  | .parked => none
  | .woken =>
    if s.inanicao_m = none then
      some { s with inanicao_m := some (.leitor i), pcL := upd s.pcL i .l50 }
    else none
  | .l56 => some { s with inanicao_m := none, pcL := upd s.pcL i .l59 }
  | .l59 =>
    if s.leitura_m = none then
      some { s with leitura_m := some (.leitor i), pcL := upd s.pcL i .l61 }
    else none
  | .l61 =>
    if (s.num_leitores + 1) % 4294967296 = 1 then
      some { s with num_leitores := (s.num_leitores + 1) % 4294967296, pcL := upd s.pcL i .l64 }
    else
      some { s with num_leitores := (s.num_leitores + 1) % 4294967296, pcL := upd s.pcL i .l67 }
  | .l64 =>
    if s.mutex_m = none then
      some { s with mutex_m := some (.leitor i), pcL := upd s.pcL i .l67 }
    else none
  | .l67 => some { s with leitura_m := none, pcL := upd s.pcL i .l70 }
  | .l70 => some { s with pcL := upd s.pcL i .l73 }
  | .l73 =>
    if s.leitura_m = none then
      some { s with leitura_m := some (.leitor i), pcL := upd s.pcL i .l75 }
    else none
  | .l75 =>
    if (s.num_leitores + 4294967296 - 1) % 4294967296 = 0 then
      some { s with
        num_leitores := (s.num_leitores + 4294967296 - 1) % 4294967296, pcL := upd s.pcL i .l78 }
    else
      some { s with
        num_leitores := (s.num_leitores + 4294967296 - 1) % 4294967296, pcL := upd s.pcL i .l81 }
  | .l78 => some { s with mutex_m := none, pcL := upd s.pcL i .l81 }
  | .l81 => some { s with leitura_m := none, pcL := upd s.pcL i .l40 }

/-- One step of thread j running escritor (lines 85-125). r is the value rand()
returns at line 105. locket_flag is an unsigned int: increment and decrement wrap
modulo 2^32. -/
def escritor (j r : Nat) (s : State) : Option State :=
  match s.pcE j with
  | .l92 =>
    if s.inanicao_m = none then
      some { s with inanicao_m := some (.escritor j), pcE := upd s.pcE j .l98 }
    else none
  | .l98 =>
    some { s with locket_flag := (s.locket_flag + 1) % 4294967296, pcE := upd s.pcE j .l100 }
  | .l100 => some { s with inanicao_m := none, pcE := upd s.pcE j .l103 }
  | .l103 =>
    if s.mutex_m = none then
      some { s with mutex_m := some (.escritor j), pcE := upd s.pcE j .l105 }
    else none
  | .l105 => some { s with critico := r % 100 + 1, pcE := upd s.pcE j .l108 }
  | .l108 => some { s with mutex_m := none, pcE := upd s.pcE j .l111 }
  | .l111 =>
    if s.inanicao_m = none then
      some { s with inanicao_m := some (.escritor j), pcE := upd s.pcE j .l117 }
    else none
  | .l117 =>
    if (s.locket_flag + 4294967296 - 1) % 4294967296 = 0 then
      some { s with
        locket_flag := (s.locket_flag + 4294967296 - 1) % 4294967296, pcE := upd s.pcE j .l120 }
    else
      some { s with
        locket_flag := (s.locket_flag + 4294967296 - 1) % 4294967296, pcE := upd s.pcE j .l123 }
  | .l120 => some { s with pcL := broadcast s.pcL, pcE := upd s.pcE j .l123 }
  | .l123 => some { s with inanicao_m := none, pcE := upd s.pcE j .l92 }

/-- What the scheduler can choose: a step of a reader or of a writer, or a
spurious wake-up of a reader parked in pthread_cond_wait. -/
inductive Action where
  | leitor (i : Nat)
  | escritor (j r : Nat)
  | spurious (i : Nat)
  deriving DecidableEq, Repr

/-- One step of the whole program under the scheduler choice a. -/
def step (cfg : Config) (s : State) : Action → Option State
  | .leitor i => if i < cfg.NUM_LEIT then leitor i s else none
  | .escritor j r => if j < cfg.NUM_ESCR then escritor j r s else none
  | .spurious i =>
    if s.pcL i = .parked then some { s with pcL := upd s.pcL i .woken } else none

/-- States reachable from init by any interleaving. -/
inductive Reachable (cfg : Config) : State → Prop where
  | init : Reachable cfg init
  | step {s s' : State} (a : Action) : Reachable cfg s → step cfg s a = some s' → Reachable cfg s'

/-- Runs a schedule from s, skipping the choices that are not enabled. -/
def run (cfg : Config) (s : State) : List Action → State
  | [] => s
  | a :: as => run cfg ((step cfg s a).getD s) as

/-- A reader at its read of critico: after the leitura_m unlock of line 67 and
before the leitura_m lock of line 73. -/
def lendo : PcLeitor → Bool
  | .l70 | .l73 => true
  | .l40 | .l50 | .l53 | .parked | .woken | .l56 | .l59 | .l61 | .l64 | .l67 | .l75 | .l78
  | .l81 => false

/-- A writer inside its write section: after the mutex_m lock of line 103 and
before the unlock of line 108 has been executed. -/
def escrevendo : PcEscritor → Bool
  | .l105 | .l108 => true
  | .l92 | .l98 | .l100 | .l103 | .l111 | .l117 | .l120 | .l123 => false

/-- Program counters at which the readers hold mutex_m: from the lock of line 64
(or from line 61 when another reader holds it already) to the unlock of line 78. -/
def readSec : PcLeitor → Bool
  | .l67 | .l70 | .l73 | .l75 | .l78 => true
  | .l40 | .l50 | .l53 | .parked | .woken | .l56 | .l59 | .l61 | .l64 | .l81 => false

/-- Program counters at which a reader is counted in num_leitores: after the
increment of line 61 and before the decrement of line 75. -/
def contado : PcLeitor → Bool
  | .l64 | .l67 | .l70 | .l73 | .l75 => true
  | .l40 | .l50 | .l53 | .parked | .woken | .l56 | .l59 | .l61 | .l78 | .l81 => false

/-- Program counters at which a reader holds leitura_m. -/
def leitC : PcLeitor → Bool
  | .l61 | .l64 | .l67 | .l75 | .l78 | .l81 => true
  | .l40 | .l50 | .l53 | .parked | .woken | .l56 | .l59 | .l70 | .l73 => false

/-- Program counters at which a reader holds inanicao_m. -/
def inanL : PcLeitor → Bool
  | .l50 | .l53 | .l56 => true
  | .l40 | .parked | .woken | .l59 | .l61 | .l64 | .l67 | .l70 | .l73 | .l75 | .l78
  | .l81 => false

/-- Program counters at which a writer holds inanicao_m. -/
def inanE : PcEscritor → Bool
  | .l98 | .l100 | .l117 | .l120 | .l123 => true
  | .l92 | .l103 | .l105 | .l108 | .l111 => false

/-- Program counters at which a writer is pending: after the increment of line
98 and before the decrement of line 117. -/
def pendente : PcEscritor → Bool
  | .l100 | .l103 | .l105 | .l108 | .l111 | .l117 => true
  | .l92 | .l98 | .l120 | .l123 => false

/-- Whether mutex_m is locked, and was locked by a reader. -/
def heldByReader : Option Tid → Bool
  | some (.leitor _) => true
  | some (.escritor _) => false
  | none => false

/-- Number of readers counted in num_leitores. -/
def ativos (cfg : Config) (s : State) : Nat :=
  soma cfg.NUM_LEIT (fun i => if contado (s.pcL i) = true then 1 else 0)

/-- Number of writers pending. -/
def pendentes (cfg : Config) (s : State) : Nat :=
  soma cfg.NUM_ESCR (fun j => if pendente (s.pcE j) = true then 1 else 0)

/-- Exclusion invariant of the reader-writer gate. -/
structure InvExcl (cfg : Config) (s : State) : Prop where
  wr : ∀ j, escrevendo (s.pcE j) = true → s.mutex_m = some (.escritor j)
  rd : ∀ i, readSec (s.pcL i) = true → heldByReader s.mutex_m = true
  lt : ∀ i, leitC (s.pcL i) = true → s.leitura_m = some (.leitor i)
  first : ∀ i, s.pcL i = .l64 → s.num_leitores = 1
  last : ∀ i, s.pcL i = .l78 → s.num_leitores = 0
  free : s.leitura_m = none → s.num_leitores ≠ 0 → heldByReader s.mutex_m = true
  busy : ∀ k, s.leitura_m = some (.leitor k) → s.pcL k ≠ .l64 → s.num_leitores ≠ 0 →
    heldByReader s.mutex_m = true
  count : s.num_leitores = ativos cfg s
  idle : ∀ i, cfg.NUM_LEIT ≤ i → s.pcL i = .l40

/-- Gate invariant: inanicao_m protects locket_flag, which counts the pending
writers, and a reader that has left the wait loop has seen it equal to 0. -/
structure InvGate (cfg : Config) (s : State) : Prop where
  gl : ∀ i, inanL (s.pcL i) = true → s.inanicao_m = some (.leitor i)
  ge : ∀ j, inanE (s.pcE j) = true → s.inanicao_m = some (.escritor j)
  passed : ∀ i, s.pcL i = .l56 → s.locket_flag = 0
  count : s.locket_flag = pendentes cfg s
  idle : ∀ j, cfg.NUM_ESCR ≤ j → s.pcE j = .l92

/-- A schedule of the shipped program: reader 0 passes the gate (lines 40-56),
writer 0 announces itself and enters its write section (lines 92-103), then
reader 0 locks leitura_m and increments num_leitores (lines 59-61). -/
def sched_counter : List Action :=
  [.leitor 0, .leitor 0, .leitor 0, .escritor 0 0, .escritor 0 0, .escritor 0 0,
    .escritor 0 0, .leitor 0, .leitor 0]

end LeitorEscritor

namespace Jantar

/-- The compile-time constants of jantar_dos_filosofos.c (lines 32-33), and the
size in bytes of size_t on the target (8 on the 64-bit targets the file supports). -/
structure Config where
  NUM_FILOSOFOS : Nat
  LIMIT_JANTAS : Nat
  SIZE_T : Nat

/-- The constants as shipped: 5 philosophers, 10 meals each, 8-byte size_t. -/
def shipped : Config := ⟨5, 10, 8⟩

/-- Program counter of a thread running jantar; a label names the line of the
next statement to execute. parked and woken are the two phases inside
pthread_cond_wait of line 83. ret is the state after the loop and the printf of
line 133. -/
inductive Pc where
  | l74 | l80 | l83 | parked | woken | l86 | l89 | l96 | l99 | l101 | l105 | l108 | l110
  | l113 | l115 | l117 | l120 | l122 | l124 | l126 | l129 | ret
  deriving DecidableEq, Repr

/-- Value of an n-byte object after memset has stored the byte c in each of its
bytes. -/
def memset_word (c : Nat) : Nat → Nat
  | 0 => 0
  | n + 1 => memset_word c n * 256 + c % 256

/-- pega_hashi (lines 42-50): the array after the call and the value returned. -/
def pega_hashi (hashi : Nat → Nat) (pos_filosofo : Nat) : (Nat → Nat) × Nat :=
  if hashi pos_filosofo ≠ 0 then (upd hashi pos_filosofo 0, 1) else (hashi, 0)

/-- devolver_hashi (lines 53-56). -/
def devolver_hashi (hashi : Nat → Nat) (pos_filosofo : Nat) : Nat → Nat :=
  upd hashi pos_filosofo 1

/-- Index of the right-hand hashi of philosopher i (lines 96 and 122). -/
def direita (cfg : Config) (i : Nat) : Nat := (i + 1) % cfg.NUM_FILOSOFOS

/-- Index of the philosopher whose right-hand hashi is hashi j. -/
def anterior (cfg : Config) (j : Nat) : Nat :=
  (j + cfg.NUM_FILOSOFOS - 1) % cfg.NUM_FILOSOFOS

/-- Global variables of jantar_dos_filosofos.c, the mutex (with its owner), one
program counter per thread, and two history flags per philosopher: esq i is set
when pega_hashi succeeds on the left hashi of i and cleared by devolver_hashi on
it, dir i likewise for its right hashi. -/
structure State where
  hashi : Nat → Nat
  jantas : Nat → Nat
  mutex_m : Option Nat
  pc : Nat → Pc
  esq : Nat → Bool
  dir : Nat → Bool

/-- State main sets up before creating the threads (lines 38-39 and 147): memset
stores the byte 1 in every byte of hashi. -/
def init (cfg : Config) : State :=
  { hashi := fun _ => memset_word 1 cfg.SIZE_T, jantas := fun _ => 0, mutex_m := none,
    pc := fun _ => .l74, esq := fun _ => false, dir := fun _ => false }

/-- pthread_cond_signal on hashi_cond[j]: only philosopher j ever waits on it. -/
def signal (pc : Nat → Pc) (j : Nat) : Nat → Pc :=
  if pc j = .parked then upd pc j .woken else pc

/-- One step of thread i running jantar (lines 65-134). -/
def jantar (cfg : Config) (i : Nat) (s : State) : Option State :=
  match s.pc i with
  | .l74 =>
    if s.mutex_m = none then some { s with mutex_m := some i, pc := upd s.pc i .l80 } else none
  | .l80 =>
    if (pega_hashi s.hashi i).2 = 0 then some { s with pc := upd s.pc i .l83 }
    else
      some { s with
        hashi := (pega_hashi s.hashi i).1, esq := upd s.esq i true, pc := upd s.pc i .l86 }
  | .l83 => some { s with mutex_m := none, pc := upd s.pc i .parked }
  | .parked => none
  | .woken =>
    if s.mutex_m = none then some { s with mutex_m := some i, pc := upd s.pc i .l80 } else none
  | .l86 => some { s with mutex_m := none, pc := upd s.pc i .l89 }
  | .l89 =>
    if s.mutex_m = none then some { s with mutex_m := some i, pc := upd s.pc i .l96 } else none
  | .l96 =>
    if (pega_hashi s.hashi (direita cfg i)).2 = 0 then some { s with pc := upd s.pc i .l99 }
    else
      some { s with
        hashi := (pega_hashi s.hashi (direita cfg i)).1, dir := upd s.dir i true,
        pc := upd s.pc i .l105 }
  | .l99 =>
    some { s with
      hashi := devolver_hashi s.hashi i, esq := upd s.esq i false, pc := upd s.pc i .l101 }
  | .l101 => some { s with mutex_m := none, pc := upd s.pc i .l74 }
  | .l105 => some { s with mutex_m := none, pc := upd s.pc i .l108 }
  | .l108 => some { s with pc := upd s.pc i .l110 }
  | .l110 =>
    some { s with
      jantas := upd s.jantas i ((s.jantas i + 1) % 2 ^ (8 * cfg.SIZE_T)),
      pc := upd s.pc i .l113 }
  | .l113 =>
    if s.mutex_m = none then some { s with mutex_m := some i, pc := upd s.pc i .l115 } else none
  | .l115 =>
    some { s with
      hashi := devolver_hashi s.hashi i, esq := upd s.esq i false, pc := upd s.pc i .l117 }
  | .l117 => some { s with mutex_m := none, pc := upd s.pc i .l120 }
  | .l120 =>
    if s.mutex_m = none then some { s with mutex_m := some i, pc := upd s.pc i .l122 } else none
  | .l122 =>
    some { s with
      hashi := devolver_hashi s.hashi (direita cfg i), dir := upd s.dir i false,
      pc := upd s.pc i .l124 }
  | .l124 => some { s with pc := upd (signal s.pc (direita cfg i)) i .l126 }
  | .l126 => some { s with mutex_m := none, pc := upd s.pc i .l129 }
  | .l129 =>
    if s.jantas i = cfg.LIMIT_JANTAS then some { s with pc := upd s.pc i .ret }
    else some { s with pc := upd s.pc i .l74 }
  | .ret => none

/-- What the scheduler can choose: a step of a philosopher, or a spurious
wake-up of a philosopher parked in pthread_cond_wait. -/
inductive Action where
  | jantar (i : Nat)
  | spurious (i : Nat)
  deriving DecidableEq, Repr

/-- One step of the whole program under the scheduler choice a. -/
def step (cfg : Config) (s : State) : Action → Option State
  | .jantar i => if i < cfg.NUM_FILOSOFOS then jantar cfg i s else none
  | .spurious i =>
    if s.pc i = .parked then some { s with pc := upd s.pc i .woken } else none

/-- States reachable from init by any interleaving. -/
inductive Reachable (cfg : Config) : State → Prop where
  | init : Reachable cfg (init cfg)
  | step {s s' : State} (a : Action) : Reachable cfg s → step cfg s a = some s' → Reachable cfg s'

/-- Runs a schedule from s, skipping the choices that are not enabled. -/
def run (cfg : Config) (s : State) : List Action → State
  | [] => s
  | a :: as => run cfg ((step cfg s a).getD s) as

/-- Program counters at which a philosopher holds mutex_m. -/
def critJ : Pc → Bool
  | .l80 | .l83 | .l86 | .l96 | .l99 | .l101 | .l105 | .l115 | .l117 | .l122 | .l124
  | .l126 => true
  | .l74 | .parked | .woken | .l89 | .l108 | .l110 | .l113 | .l120 | .l129 | .ret => false

/-- Program counters between a successful pega_hashi on the left hashi (line 80)
and the devolver_hashi on it (line 99 or 115). -/
def temEsq : Pc → Bool
  | .l86 | .l89 | .l96 | .l99 | .l105 | .l108 | .l110 | .l113 | .l115 => true
  | .l74 | .l80 | .l83 | .parked | .woken | .l101 | .l117 | .l120 | .l122 | .l124 | .l126
  | .l129 | .ret => false

/-- Program counters between a successful pega_hashi on the right hashi (line 96)
and the devolver_hashi on it (line 122). -/
def temDir : Pc → Bool
  | .l105 | .l108 | .l110 | .l113 | .l115 | .l117 | .l120 | .l122 => true
  | .l74 | .l80 | .l83 | .parked | .woken | .l86 | .l89 | .l96 | .l99 | .l101 | .l124
  | .l126 | .l129 | .ret => false

/-- The eating section (lines 107-110). -/
def comendo : Pc → Bool
  | .l108 | .l110 => true
  | .l74 | .l80 | .l83 | .parked | .woken | .l86 | .l89 | .l96 | .l99 | .l101 | .l105
  | .l113 | .l115 | .l117 | .l120 | .l122 | .l124 | .l126 | .l129 | .ret => false

/-- A philosopher inside pthread_cond_wait of line 83, or about to call it. -/
def esperando : Pc → Bool
  | .l83 | .parked | .woken => true
  | .l74 | .l80 | .l86 | .l89 | .l96 | .l99 | .l101 | .l105 | .l108 | .l110 | .l113
  | .l115 | .l117 | .l120 | .l122 | .l124 | .l126 | .l129 | .ret => false

/-- Philosopher i holds hashi j: as its left hashi, or as its right hashi. -/
def segura (cfg : Config) (s : State) (i j : Nat) : Prop :=
  (j = i ∧ s.esq i = true) ∨ (j = direita cfg i ∧ s.dir i = true)

/-- Philosopher i holds exactly one hashi. -/
def um_so (s : State) (i : Nat) : Prop :=
  (s.esq i = true ∧ s.dir i = false) ∨ (s.esq i = false ∧ s.dir i = true)

/-- Philosopher i cannot take a step by itself. -/
def bloqueado (cfg : Config) (s : State) (i : Nat) : Prop :=
  jantar cfg i s = none

/-- Invariant of the dining philosophers: lock discipline, the history flags
follow the program counters, and hashi j is 0 exactly when its left-hand user
or its right-hand user holds it, never both. -/
structure InvJantar (cfg : Config) (s : State) : Prop where
  lock : ∀ i, critJ (s.pc i) = true → s.mutex_m = some i
  owner : ∀ m, s.mutex_m = some m → critJ (s.pc m) = true
  fesq : ∀ i, s.esq i = temEsq (s.pc i)
  fdir : ∀ i, s.dir i = temDir (s.pc i)
  zero : ∀ j, j < cfg.NUM_FILOSOFOS →
    (s.hashi j = 0 ↔ (s.esq j = true ∨ s.dir (anterior cfg j) = true))
  excl : ∀ j, j < cfg.NUM_FILOSOFOS → ¬ (s.esq j = true ∧ s.dir (anterior cfg j) = true)
  idle : ∀ i, cfg.NUM_FILOSOFOS ≤ i → s.pc i = .l74

/-- A schedule of the shipped program: philosopher 0 takes its left hashi and
leaves the critical section (lines 74-86), then philosopher 1 does the same. -/
def sched_mesa : List Action :=
  [.jantar 0, .jantar 0, .jantar 0, .jantar 1, .jantar 1, .jantar 1]

/-- Wake-up invariant: a philosopher that has failed pega_hashi on its left hashi
(line 83, mutex still held) sees it taken, and a parked philosopher k has its
left hashi taken unless its left neighbour is at line 124, between the
devolver_hashi of line 122 and the signal on hashi_cond[k]. -/
structure InvWake (cfg : Config) (s : State) : Prop where
  tested : ∀ k, k < cfg.NUM_FILOSOFOS → s.pc k = .l83 → s.hashi k = 0
  parked : ∀ k, k < cfg.NUM_FILOSOFOS → s.pc k = .parked →
    s.hashi k = 0 ∨ s.pc (anterior cfg k) = .l124

/-- A schedule of the shipped program: philosopher 0 takes both hashis and starts
eating (lines 74-105); philosopher 1 finds its left hashi taken and parks (lines
74-83); philosopher 0 eats, gives its left hashi back (lines 108-117), locks
again and gives its right hashi back (lines 120-122), and is now before the
signal of line 124. -/
def sched_release : List Action :=
  List.replicate 6 (.jantar 0) ++ List.replicate 3 (.jantar 1) ++
    List.replicate 7 (.jantar 0)

end Jantar

/-! ## Theorems -/

@[simp] theorem upd_same {α : Type} (f : Nat → α) (i : Nat) (v : α) : upd f i v i = v := by
  simp [upd]

@[simp] theorem upd_other {α : Type} (f : Nat → α) (i j : Nat) (v : α) (h : j ≠ i) :
    upd f i v j = f j := by
  simp [upd, h]

theorem soma_congr {n : Nat} {f g : Nat → Nat} (h : ∀ j, j < n → g j = f j) :
    soma n g = soma n f := by
  induction n with
  | zero => rfl
  | succ n ih =>
    simp only [soma]
    rw [ih (fun j hj => h j (by omega)), h n (by omega)]

theorem soma_upd {n i : Nat} {f g : Nat → Nat} (hi : i < n) (h : ∀ j, j ≠ i → g j = f j) :
    soma n g + f i = soma n f + g i := by
  induction n with
  | zero => omega
  | succ n ih =>
    simp only [soma]
    by_cases hin : i = n
    · subst hin
      have : soma i g = soma i f := soma_congr (fun j hj => h j (by omega))
      omega
    · have := ih (by omega)
      have := h n (by omega)
      omega

theorem soma_const {n c : Nat} {f : Nat → Nat} (h : ∀ j, j < n → f j = c) : soma n f = n * c := by
  induction n with
  | zero => simp [soma]
  | succ n ih =>
    simp only [soma]
    rw [ih (fun j hj => h j (by omega)), h n (by omega)]
    ring

theorem soma_le {n : Nat} {f : Nat → Nat} (h : ∀ j, f j ≤ 1) : soma n f ≤ n := by
  induction n with
  | zero => simp [soma]
  | succ n ih =>
    simp only [soma]
    have := h n
    omega

theorem soma_pos {n : Nat} {f : Nat → Nat} (h : soma n f ≠ 0) : ∃ j, j < n ∧ f j ≠ 0 := by
  induction n with
  | zero => simp [soma] at h
  | succ n ih =>
    simp only [soma] at h
    by_cases hn : f n = 0
    · obtain ⟨j, hj, hf⟩ := ih (by omega)
      exact ⟨j, by omega, hf⟩
    · exact ⟨n, by omega, hn⟩

theorem soma_zero {n : Nat} {f : Nat → Nat} (h : soma n f = 0) : ∀ j, j < n → f j = 0 := by
  induction n with
  | zero => intro j hj; omega
  | succ n ih =>
    simp only [soma] at h
    intro j hj
    by_cases hjn : j = n
    · subst hjn; omega
    · exact ih (by omega) j (by omega)

theorem soma_lt {n i : Nat} {f : Nat → Nat} (hi : i < n) (h : ∀ j, f j ≤ 1) (h0 : f i = 0) :
    soma n f < n := by
  have h1 := @soma_upd n i f (upd f i 1) hi (fun j hj => by simp [hj])
  have h2 : soma n (upd f i 1) ≤ n := soma_le (fun j => by
    by_cases hj : j = i
    · subst hj; simp
    · simp [hj, h j])
  simp at h1
  omega

theorem soma_ge {n i : Nat} {f : Nat → Nat} (hi : i < n) (h1 : f i = 1) : 1 ≤ soma n f := by
  have := @soma_zero n f
  by_contra hc
  have := this (by omega) i hi
  omega

namespace ProdCons

theorem signal_cons_cases {cfg : Config} {pc pc' : Nat → PcCons} {w : Option Nat}
    (h : signal_cons cfg pc w = some pc') :
    pc' = pc ∨ ∃ j, pc j = .parked ∧ pc' = upd pc j .woken := by
  unfold signal_cons at h
  split at h
  · split at h
    · rename_i j hj
      simp at h
      exact Or.inr ⟨j, hj.2, h.symm⟩
    · simp at h
  · split at h
    · simp at h; exact Or.inl h.symm
    · simp at h

theorem signal_prod_cases {cfg : Config} {pc pc' : Nat → PcProd} {w : Option Nat}
    (h : signal_prod cfg pc w = some pc') :
    pc' = pc ∨ ∃ j, pc j = .parked ∧ pc' = upd pc j .woken := by
  unfold signal_prod at h
  split at h
  · split at h
    · rename_i j hj
      simp at h
      exact Or.inr ⟨j, hj.2, h.symm⟩
    · simp at h
  · split at h
    · simp at h; exact Or.inl h.symm
    · simp at h

@[simp] theorem critP_eqs :
    critP .l50 = false ∧ critP .l53 = true ∧ critP .l54 = true ∧ critP .parked = false ∧
    critP .woken = false ∧ critP .l57 = true ∧ critP .l63 = true ∧ critP .l66 = true ∧
    critP .l69 = true ∧ critP .l71 = true ∧ critP .l77 = true ∧ critP .ret = false := by
  decide

@[simp] theorem critC_eqs :
    critC .l88 = false ∧ critC .l91 = true ∧ critC .l94 = true ∧ critC .l95 = true ∧
    critC .l97 = true ∧ critC .l98 = true ∧ critC .l102 = true ∧ critC .l104 = true ∧
    critC .parked = false ∧ critC .woken = false ∧ critC .l108 = true ∧ critC .l113 = true ∧
    critC .l116 = true ∧ critC .ret = false := by
  decide

@[simp] theorem fimC_eqs :
    fimC .l88 = false ∧ fimC .l91 = false ∧ fimC .l94 = false ∧ fimC .l95 = true ∧
    fimC .l97 = true ∧ fimC .l98 = false ∧ fimC .l102 = true ∧ fimC .l104 = false ∧
    fimC .parked = false ∧ fimC .woken = false ∧ fimC .l108 = false ∧ fimC .l113 = false ∧
    fimC .l116 = false ∧ fimC .ret = false := by
  decide

@[simp] theorem critM_eqs :
    (∀ k, critM (.join_prod k) = false) ∧ critM .l159 = false ∧ critM .l160 = false ∧
    critM .l161 = false ∧ critM .l169 = false ∧ critM .l170 = true ∧ critM .l171 = true ∧
    (∀ k, critM (.join_cons k) = false) ∧ critM .ret = false := by
  simp [critM]

@[simp] theorem fimM_eqs :
    (∀ k, fimM (.join_prod k) = false) ∧ fimM .l159 = false ∧ fimM .l160 = true ∧
    fimM .l161 = true ∧ fimM .l169 = false ∧ fimM .l170 = false ∧ fimM .l171 = false ∧
    (∀ k, fimM (.join_cons k) = false) ∧ fimM .ret = false := by
  simp [fimM]

@[simp] theorem emptyC_eqs :
    emptyC .l88 = false ∧ emptyC .l91 = false ∧ emptyC .l94 = true ∧ emptyC .l95 = true ∧
    emptyC .l97 = true ∧ emptyC .l98 = true ∧ emptyC .l102 = true ∧ emptyC .l104 = true ∧
    emptyC .parked = false ∧ emptyC .woken = false ∧ emptyC .l108 = false ∧
    emptyC .l113 = false ∧ emptyC .l116 = false ∧ emptyC .ret = false := by
  decide

@[simp] theorem flagSet_eqs :
    (∀ k, flagSet (.join_prod k) = false) ∧ flagSet .l159 = false ∧ flagSet .l160 = false ∧
    flagSet .l161 = true ∧ flagSet .l169 = true ∧ flagSet .l170 = true ∧ flagSet .l171 = true ∧
    (∀ k, flagSet (.join_cons k) = true) ∧ flagSet .ret = true := by
  simp [flagSet]

@[simp] theorem afterB_eqs :
    (∀ k, afterB (.join_prod k) = false) ∧ afterB .l159 = false ∧ afterB .l160 = false ∧
    afterB .l161 = false ∧ afterB .l169 = false ∧ afterB .l170 = false ∧ afterB .l171 = true ∧
    (∀ k, afterB (.join_cons k) = true) ∧ afterB .ret = true := by
  simp [afterB]

@[simp] theorem joined_eqs (cfg : Config) :
    (∀ k, joined cfg (.join_prod k) = k) ∧ joined cfg .l159 = cfg.NUM_PROD ∧
    joined cfg .l160 = cfg.NUM_PROD ∧ joined cfg .l161 = cfg.NUM_PROD ∧
    joined cfg .l169 = cfg.NUM_PROD ∧ joined cfg .l170 = cfg.NUM_PROD ∧
    joined cfg .l171 = cfg.NUM_PROD ∧ (∀ k, joined cfg (.join_cons k) = cfg.NUM_PROD) ∧
    joined cfg .ret = cfg.NUM_PROD := by
  simp [joined]

@[simp] theorem retC_eqs :
    retC .l88 = false ∧ retC .l91 = false ∧ retC .l94 = false ∧ retC .l95 = false ∧
    retC .l97 = true ∧ retC .l98 = true ∧ retC .l102 = false ∧ retC .l104 = false ∧
    retC .parked = false ∧ retC .woken = false ∧ retC .l108 = false ∧ retC .l113 = false ∧
    retC .l116 = false ∧ retC .ret = true := by
  decide

@[simp] theorem waitC_eqs :
    waitC .l88 = false ∧ waitC .l91 = false ∧ waitC .l94 = false ∧ waitC .l95 = false ∧
    waitC .l97 = false ∧ waitC .l98 = false ∧ waitC .l102 = true ∧ waitC .l104 = true ∧
    waitC .parked = true ∧ waitC .woken = false ∧ waitC .l108 = false ∧ waitC .l113 = false ∧
    waitC .l116 = false ∧ waitC .ret = false := by
  decide

@[simp] theorem below_eqs :
    below .l50 = true ∧ below .l53 = true ∧ below .l54 = true ∧ below .parked = true ∧
    below .woken = true ∧ below .l57 = true ∧ below .l63 = true ∧ below .l66 = false ∧
    below .l69 = false ∧ below .l71 = false ∧ below .l77 = true ∧ below .ret = false := by
  decide

@[simp] theorem atLimit_eqs :
    atLimit .l50 = false ∧ atLimit .l53 = false ∧ atLimit .l54 = false ∧
    atLimit .parked = false ∧ atLimit .woken = false ∧ atLimit .l57 = false ∧
    atLimit .l63 = false ∧ atLimit .l66 = false ∧ atLimit .l69 = false ∧ atLimit .l71 = true ∧
    atLimit .l77 = false ∧ atLimit .ret = true := by
  decide

theorem invLock_produtor {cfg : Config} {i r : Nat} {w : Option Nat} {s s' : State}
    (hI : InvLock s) (h : produtor cfg i r w s = some s') : InvLock s' := by
  obtain ⟨h1, h2, h3, h4, h5⟩ := hI
  have h1i := h1 i
  unfold produtor at h
  split at h
  all_goals (try split at h)
  all_goals (try (rename_i pcn hsig; rcases signal_cons_cases hsig with rfl | ⟨j, hj, rfl⟩))
  all_goals cases h
  all_goals constructor
  all_goals
    first
    | assumption
    | (intro k hk
       have h1k := h1 k
       have h2k := h2 k
       have h4k := h4 k
       clear h1 h2 h4
       (try dsimp only at hk ⊢) <;> (by_cases hki : k = i) <;>
       simp_all
       done)
    | (intro k hk
       have h1k := h1 k
       have h2k := h2 k
       have h4k := h4 k
       clear h1 h2 h4
       (try dsimp only at hk ⊢) <;> (by_cases hkj : k = j) <;>
       simp_all
       done)
    | (intro hk
       (try dsimp only at hk ⊢) <;>
       simp_all
       done)

theorem invLock_consumidor {cfg : Config} {i : Nat} {w : Option Nat} {s s' : State}
    (hI : InvLock s) (h : consumidor cfg i w s = some s') : InvLock s' := by
  obtain ⟨h1, h2, h3, h4, h5⟩ := hI
  have h2i := h2 i
  have h4i := h4 i
  unfold consumidor at h
  split at h
  all_goals (try split at h)
  all_goals (try (rename_i pcn hsig; rcases signal_prod_cases hsig with rfl | ⟨j, hj, rfl⟩))
  all_goals cases h
  all_goals constructor
  all_goals
    first
    | assumption
    | (intro k hk
       have h1k := h1 k
       have h2k := h2 k
       have h4k := h4 k
       clear h1 h2 h4
       (try dsimp only at hk ⊢) <;> (by_cases hki : k = i) <;>
       simp_all
       done)
    | (intro k hk
       have h1k := h1 k
       have h2k := h2 k
       have h4k := h4 k
       clear h1 h2 h4
       (try dsimp only at hk ⊢) <;> (by_cases hkj : k = j) <;>
       simp_all
       done)
    | (intro hk
       (try dsimp only at hk ⊢) <;>
       simp_all
       done)

theorem invLock_main {cfg : Config} {s s' : State}
    (hI : InvLock s) (h : main cfg s = some s') : InvLock s' := by
  obtain ⟨h1, h2, h3, h4, h5⟩ := hI
  unfold main at h
  split at h
  all_goals (try split at h)
  all_goals (try split at h)
  all_goals cases h
  all_goals constructor
  all_goals
    first
    | assumption
    | (intro k hk
       have h1k := h1 k
       have h2k := h2 k
       have h4k := h4 k
       clear h1 h2 h4
       (try dsimp only [broadcast_cons] at hk ⊢) <;> (try split at hk) <;>
       simp_all
       done)
    | (intro hk
       (try dsimp only at hk ⊢) <;>
       simp_all
       done)

theorem invLock_step {cfg : Config} {a : Action} {s s' : State}
    (hI : InvLock s) (h : step cfg s a = some s') : InvLock s' := by
  cases a with
  | prod i r w =>
    simp only [step] at h
    split at h
    · exact invLock_produtor hI h
    · cases h
  | cons i w =>
    simp only [step] at h
    split at h
    · exact invLock_consumidor hI h
    · cases h
  | principal => exact invLock_main hI h
  | spurious_prod i =>
    obtain ⟨h1, h2, h3, h4, h5⟩ := hI
    simp only [step] at h
    split at h
    · rename_i hp
      cases h
      refine ⟨?_, h2, h3, h4, h5⟩
      intro k hk
      have h1k := h1 k
      by_cases hki : k = i <;> simp_all [upd, critP]
    · cases h
  | spurious_cons i =>
    obtain ⟨h1, h2, h3, h4, h5⟩ := hI
    simp only [step] at h
    split at h
    · rename_i hp
      cases h
      refine ⟨h1, ?_, h3, ?_, h5⟩
      all_goals
        intro k hk
        have h2k := h2 k
        have h4k := h4 k
        by_cases hki : k = i <;> simp_all [upd, critC, fimC]
    · cases h

theorem reachable_invLock {cfg : Config} {s : State} (h : Reachable cfg s) : InvLock s := by
  induction h with
  | init => constructor <;> simp [init, critP, critC, critM, fimC, fimM]
  | step a _ hst ih => exact invLock_step ih hst

theorem reachable_run_canal (cfg : Config) (as : List Action) :
    ∀ s, Reachable cfg s → Reachable cfg (run cfg s as) := by
  induction as with
  | nil => intro s h; exact h
  | cons a as ih =>
    intro s h
    simp only [run]
    cases hst : step cfg s a with
    | none => simpa using ih s h
    | some s' => simpa using ih s' (Reachable.step a h hst)
theorem mod_ne_of_lt {C a b : Nat} (hab : a < b) (hb : b < a + C) : a % C ≠ b % C := by
  intro h
  have h1 : (b - a) % C = 0 := Nat.sub_mod_eq_zero_of_mod_eq h.symm
  have h2 : (b - a) % C = b - a := Nat.mod_eq_of_lt (by omega)
  omega

theorem ringData_init {C : Nat} (hC : 0 < C) : RingData C 0 0 (fun _ => 0) [] [] := by
  constructor <;> first | simp; done | (simp; exact hC)

theorem ringData_produce {C lp lc : Nat} {produtos : Nat → Int}
    {produced consumed : List (Nat × Int)} (v : Int)
    (h : RingData C lp lc produtos produced consumed) (hnf : (lp + 1) % C ≠ lc) :
    RingData C ((lp + 1) % C) lc (upd produtos lp v) (produced ++ [(lp, v)]) consumed := by
  obtain ⟨hp, hc, le, lt, pre, win, pos⟩ := h
  have hsucc : (lp + 1) % C = (produced.length + 1) % C := by
    rw [hp, Nat.mod_add_mod]
  have hlt : produced.length + 1 < consumed.length + C := by
    by_contra hcon
    have he : produced.length + 1 = consumed.length + C := by omega
    apply hnf
    rw [hsucc, he, Nat.add_mod_right, hc]
  refine ⟨?_, hc, ?_, ?_, ?_, ?_, ?_⟩
  · simp [hsucc]
  · simp; omega
  · simpa using hlt
  · rw [List.take_append_of_le_length le]; exact pre
  · intro k hk1 hk2
    simp only [List.length_append, List.length_singleton] at hk2
    by_cases hkl : k < produced.length
    · rw [List.getElem?_append_left hkl, win k hk1 hkl]
      have hne : k % C ≠ lp := by
        rw [hp]; exact mod_ne_of_lt hkl (by omega)
      simp [upd, hne]
    · have hke : k = produced.length := by omega
      subst hke
      simp [hp, upd]
  · intro k p v' hk
    by_cases hkl : k < produced.length
    · rw [List.getElem?_append_left hkl] at hk
      exact pos k p v' hk
    · rw [List.getElem?_append_right (by omega)] at hk
      have hk0 : k - produced.length = 0 := by
        by_contra hne
        have : (1:Nat) ≤ k - produced.length := by omega
        simp [List.getElem?_eq_none, this] at hk
      rw [hk0] at hk
      simp at hk
      have hke : k = produced.length := by omega
      rw [hke, ← hk.1, hp]

theorem ringData_consume {C lp lc : Nat} {produtos : Nat → Int}
    {produced consumed : List (Nat × Int)}
    (h : RingData C lp lc produtos produced consumed) (hne : lc ≠ lp) :
    RingData C lp ((lc + 1) % C) produtos produced (consumed ++ [(lc, produtos lc)]) := by
  obtain ⟨hp, hc, le, lt, pre, win, pos⟩ := h
  have hlt : consumed.length < produced.length := by
    rcases Nat.lt_or_ge consumed.length produced.length with h | h
    · exact h
    · exfalso; apply hne
      have : consumed.length = produced.length := by omega
      rw [hc, hp, this]
  have hget := win consumed.length (Nat.le_refl _) hlt
  refine ⟨hp, ?_, ?_, ?_, ?_, ?_, pos⟩
  · simp [hc, Nat.mod_add_mod]
  · simpa using hlt
  · simp; omega
  · simp only [List.length_append, List.length_singleton]
    rw [List.take_succ, ← pre, hget, ← hc]
    simp
  · intro k hk1 hk2
    simp only [List.length_append, List.length_singleton] at hk1
    exact win k (by omega) hk2

theorem emptyC_critC {p : PcCons} (h : emptyC p = true) : critC p = true := by
  cases p <;> simp_all

theorem invRing_produtor {cfg : Config} {i r : Nat} {w : Option Nat} {s s' : State}
    (hL : InvLock s) (hI : InvRing cfg s) (h : produtor cfg i r w s = some s') :
    InvRing cfg s' := by
  obtain ⟨l1, l2, -, -, -⟩ := hL
  obtain ⟨hd, h1, h2, h3⟩ := hI
  have l1i := l1 i
  have h1i := h1 i
  unfold produtor at h
  split at h
  all_goals (try split at h)
  all_goals (try (rename_i pcn hsig; rcases signal_cons_cases hsig with rfl | ⟨j, hj, rfl⟩))
  all_goals cases h
  all_goals constructor
  all_goals
    first
    | assumption
    | exact ringData_produce _ hd (h1i (by assumption))
    | (intro k hk
       have h1k := h1 k
       have l1k := l1 k
       clear h1 h2 h3 l1 l2
       (try dsimp only at hk ⊢) <;> (by_cases hki : k = i) <;> simp_all
       done)
    | (intro k hk
       have h2k := h2 k
       have h3k := h3 k
       have l2k := l2 k
       clear h1 h2 h3 l1 l2
       (try dsimp only at hk ⊢) <;> (by_cases hkj : k = j) <;> simp_all
       done)
    | (intro k hk
       have l2k := l2 k (by first | exact emptyC_critC hk | (rw [hk]; rfl))
       simp_all
       done)

theorem invRing_consumidor {cfg : Config} {i : Nat} {w : Option Nat} {s s' : State}
    (hL : InvLock s) (hI : InvRing cfg s) (h : consumidor cfg i w s = some s') :
    InvRing cfg s' := by
  obtain ⟨l1, l2, -, -, -⟩ := hL
  obtain ⟨hd, h1, h2, h3⟩ := hI
  have l2i := l2 i
  have h2i := h2 i
  have h3i := h3 i
  unfold consumidor at h
  split at h
  all_goals (try split at h)
  all_goals (try (rename_i pcn hsig; rcases signal_prod_cases hsig with rfl | ⟨j, hj, rfl⟩))
  all_goals cases h
  all_goals constructor
  all_goals
    first
    | assumption
    | exact ringData_consume hd (h2i (by assumption))
    | (intro k hk
       have h2k := h2 k
       have h3k := h3 k
       have l2k := l2 k
       clear h1 h2 h3 l1 l2
       (try dsimp only at hk ⊢) <;> (by_cases hki : k = i) <;> simp_all
       done)
    | (intro k hk
       have h1k := h1 k
       have l1k := l1 k
       clear h1 h2 h3 l1 l2
       (try dsimp only at hk ⊢) <;> (by_cases hkj : k = j) <;> simp_all
       done)
    | (intro k hk
       have l1k := l1 k (by rw [hk]; rfl)
       simp_all
       done)

theorem invRing_main {cfg : Config} {s s' : State}
    (hI : InvRing cfg s) (h : main cfg s = some s') : InvRing cfg s' := by
  obtain ⟨hd, h1, h2, h3⟩ := hI
  unfold main at h
  split at h
  all_goals (try split at h)
  all_goals (try split at h)
  all_goals cases h
  all_goals constructor
  all_goals
    first
    | assumption
    | (intro k hk
       have h2k := h2 k
       have h3k := h3 k
       clear h1 h2 h3
       (try dsimp only [broadcast_cons] at hk ⊢) <;> (try split at hk) <;> simp_all
       done)

theorem invRing_step {cfg : Config} {a : Action} {s s' : State}
    (hL : InvLock s) (hI : InvRing cfg s) (h : step cfg s a = some s') : InvRing cfg s' := by
  cases a with
  | prod i r w =>
    simp only [step] at h
    split at h
    · exact invRing_produtor hL hI h
    · cases h
  | cons i w =>
    simp only [step] at h
    split at h
    · exact invRing_consumidor hL hI h
    · cases h
  | principal => exact invRing_main hI h
  | spurious_prod i =>
    obtain ⟨hd, h1, h2, h3⟩ := hI
    simp only [step] at h
    split at h
    · rename_i hp
      cases h
      refine ⟨hd, ?_, h2, h3⟩
      intro k hk
      have h1k := h1 k
      by_cases hki : k = i <;> simp_all
    · cases h
  | spurious_cons i =>
    obtain ⟨hd, h1, h2, h3⟩ := hI
    simp only [step] at h
    split at h
    · rename_i hp
      cases h
      refine ⟨hd, h1, ?_, ?_⟩
      all_goals
        intro k hk
        have h2k := h2 k
        have h3k := h3 k
        by_cases hki : k = i <;> simp_all
    · cases h

theorem reachable_invRing {cfg : Config} (hC : 0 < cfg.MAX_PROD) {s : State}
    (h : Reachable cfg s) : InvRing cfg s := by
  induction h with
  | init => exact ⟨ringData_init hC, by simp [init], by simp [init], by simp [init]⟩
  | step a hr hst ih => exact invRing_step (reachable_invLock hr) ih hst

theorem invFlag_produtor {cfg : Config} {i r : Nat} {w : Option Nat} {s s' : State}
    (hI : InvFlag cfg s) (h : produtor cfg i r w s = some s') : InvFlag cfg s' := by
  obtain ⟨f1, f0, hjn, hs, hw⟩ := hI
  have hji := hjn i
  unfold produtor at h
  split at h
  all_goals (try split at h)
  all_goals (try (rename_i pcn hsig; rcases signal_cons_cases hsig with rfl | ⟨j, hj, rfl⟩))
  all_goals cases h
  all_goals constructor
  all_goals
    first
    | assumption
    | (intro k hk
       have hjk := hjn k
       clear hjn hs hw
       (try dsimp only at hk ⊢) <;> (by_cases hki : k = i) <;> simp_all
       done)
    | (intro k hk
       have hsk := hs k
       have hwk := hw k
       clear hjn hs hw
       (try dsimp only at hk ⊢) <;> (by_cases hkj : k = j) <;> simp_all
       done)

theorem invFlag_consumidor {cfg : Config} {i : Nat} {w : Option Nat} {s s' : State}
    (hI : InvFlag cfg s) (h : consumidor cfg i w s = some s') : InvFlag cfg s' := by
  obtain ⟨f1, f0, hjn, hs, hw⟩ := hI
  have hsi := hs i
  have hwi := hw i
  have hfl : s.fim_flag ≠ 0 → s.fim_flag = 1 := by
    intro hne
    cases hb : flagSet s.pcM <;> simp_all
  have hab : afterB s.pcM = true → s.fim_flag = 1 := by
    intro hne
    apply f1
    cases hpc : s.pcM <;> simp_all
  unfold consumidor at h
  split at h
  all_goals (try split at h)
  all_goals (try (rename_i pcn hsig; rcases signal_prod_cases hsig with rfl | ⟨j, hj, rfl⟩))
  all_goals cases h
  all_goals constructor
  all_goals
    first
    | assumption
    | (intro k hk
       have hsk := hs k
       have hwk := hw k
       clear hjn hs hw
       (try dsimp only at hk ⊢) <;> (by_cases hki : k = i) <;> simp_all
       done)
    | (intro k hk
       have hjk := hjn k
       clear hjn hs hw
       (try dsimp only at hk ⊢) <;> (by_cases hkj : k = j) <;> simp_all
       done)

theorem invFlag_main {cfg : Config} {s s' : State}
    (hL : InvLock s) (hI : InvFlag cfg s) (h : main cfg s = some s') : InvFlag cfg s' := by
  obtain ⟨-, l2, l3, -, -⟩ := hL
  obtain ⟨f1, f0, hjn, hs, hw⟩ := hI
  unfold main at h
  split at h
  all_goals (try split at h)
  all_goals (try split at h)
  all_goals cases h
  all_goals constructor
  all_goals
    first
    | assumption
    | (intro k hk
       have hjk := hjn k
       have hsk := hs k
       have hwk := hw k
       clear hjn hs hw l2
       (try dsimp only [broadcast_cons] at hk ⊢) <;> (try split at hk) <;> simp_all <;> omega
       done)
    | (intro k hk
       have hjk := hjn k
       clear hjn hs hw l2
       simp only [joined_eqs] at hk
       rcases Nat.lt_succ_iff_lt_or_eq.mp hk with h | h <;> simp_all
       done)
    | (intro k hk
       have hjk := hjn k
       clear hjn hs hw l2
       simp only [joined_eqs] at hk
       apply hjk
       simp_all
       omega)
    | (intro k hk
       have l2k := l2 k
       clear hjn hs hw l2
       (try dsimp only [broadcast_cons] at hk ⊢) <;> (cases hp : s.pcC k) <;> simp_all
       done)
    | (intro hk
       (try dsimp only at hk ⊢) <;> simp_all
       done)

theorem invFlag_step {cfg : Config} {a : Action} {s s' : State} (hL : InvLock s)
    (hI : InvFlag cfg s) (h : step cfg s a = some s') : InvFlag cfg s' := by
  cases a with
  | prod i r w =>
    simp only [step] at h
    split at h
    · exact invFlag_produtor hI h
    · cases h
  | cons i w =>
    simp only [step] at h
    split at h
    · exact invFlag_consumidor hI h
    · cases h
  | principal => exact invFlag_main hL hI h
  | spurious_prod i =>
    obtain ⟨f1, f0, hjn, hs, hw⟩ := hI
    simp only [step] at h
    split at h
    · rename_i hp
      cases h
      refine ⟨f1, f0, ?_, hs, hw⟩
      intro k hk
      have hjk := hjn k
      by_cases hki : k = i <;> simp_all
    · cases h
  | spurious_cons i =>
    obtain ⟨f1, f0, hjn, hs, hw⟩ := hI
    simp only [step] at h
    split at h
    · rename_i hp
      cases h
      refine ⟨f1, f0, hjn, ?_, ?_⟩
      all_goals
        intro k hk
        have hsk := hs k
        have hwk := hw k
        by_cases hki : k = i <;> simp_all
    · cases h

theorem reachable_invFlag {cfg : Config} {s : State} (h : Reachable cfg s) :
    InvFlag cfg s := by
  induction h with
  | init => constructor <;> simp [init]
  | step a hr hst ih => exact invFlag_step (reachable_invLock hr) ih hst

theorem flag_all_returned {cfg : Config} {s : State} (hF : InvFlag cfg s)
    (hf : s.fim_flag ≠ 0) : ∀ j, j < cfg.NUM_PROD → s.pcP j = .ret := by
  obtain ⟨f1, f0, hjn, -, -⟩ := hF
  intro j hj
  apply hjn
  cases hpc : s.pcM <;> simp_all

theorem invQuota_produtor {cfg : Config} (hlim : cfg.LIMIT_PROD < 2 ^ 32) {i r : Nat}
    {w : Option Nat} {s s' : State} (hi : i < cfg.NUM_PROD) (hF : InvFlag cfg s)
    (hI : InvQuota cfg s) (h : produtor cfg i r w s = some s') : InvQuota cfg s' := by
  have hflag : s.pcP i ≠ .ret → s.fim_flag = 0 := by
    intro hne
    by_contra hf
    exact hne (flag_all_returned hF hf i hi)
  obtain ⟨-, -, -, hs, -⟩ := hF
  obtain ⟨hd, ple, plt, peq⟩ := hI
  have plei := ple i
  have plti := plt i
  have peqi := peq i
  unfold produtor at h
  split at h
  all_goals (try split at h)
  all_goals (try (rename_i pcn hsig; rcases signal_cons_cases hsig with rfl | ⟨j, hj, rfl⟩))
  all_goals cases h
  all_goals constructor
  all_goals
    first
    | assumption
    | (intro k hk
       have plek := ple k
       have pltk := plt k
       have peqk := peq k
       have hsk := hs k
       have hdk := hd k
       clear ple plt peq hs hd
       (try dsimp only at hk ⊢) <;> (by_cases hki : k = i) <;> simp_all <;> omega
       done)
    | (intro k
       have plek := ple k
       clear ple plt peq hs hd
       (try dsimp only) <;> (by_cases hki : k = i) <;> simp_all <;> omega
       done)
    | (intro k hk
       have hdk := hd k
       clear ple plt peq hs hd
       (try dsimp only at hk ⊢) <;> (by_cases hkj : k = j) <;> simp_all
       done)

theorem invQuota_consumidor {cfg : Config} {i : Nat} {w : Option Nat} {s s' : State}
    (hR : InvRing cfg s) (hI : InvQuota cfg s) (h : consumidor cfg i w s = some s') :
    InvQuota cfg s' := by
  obtain ⟨-, -, r2, r3⟩ := hR
  obtain ⟨hd, ple, plt, peq⟩ := hI
  have r2i := r2 i
  have r3i := r3 i
  have hdi := hd i
  clear r2 r3
  unfold consumidor at h
  split at h
  all_goals (try split at h)
  all_goals (try (rename_i pcn hsig; rcases signal_prod_cases hsig with rfl | ⟨j, hj, rfl⟩))
  all_goals cases h
  all_goals constructor
  all_goals
    first
    | assumption
    | (intro k hk
       have hdk := hd k
       clear ple plt peq hd
       (try dsimp only at hk ⊢) <;> (by_cases hki : k = i) <;> simp_all
       done)
    | (intro k hk
       have pltk := plt k
       have peqk := peq k
       clear ple plt peq hd
       (try dsimp only at hk ⊢) <;> (by_cases hkj : k = j) <;> simp_all
       done)

theorem invQuota_main {cfg : Config} {s s' : State}
    (hI : InvQuota cfg s) (h : main cfg s = some s') : InvQuota cfg s' := by
  obtain ⟨hd, ple, plt, peq⟩ := hI
  unfold main at h
  split at h
  all_goals (try split at h)
  all_goals (try split at h)
  all_goals cases h
  all_goals constructor
  all_goals
    first
    | assumption
    | (intro k hk
       have hdk := hd k
       clear ple plt peq hd
       (try dsimp only [broadcast_cons] at hk ⊢) <;> (try split at hk) <;> simp_all
       done)

theorem invQuota_step {cfg : Config} (hlim : cfg.LIMIT_PROD < 2 ^ 32) {a : Action}
    {s s' : State} (hR : InvRing cfg s) (hF : InvFlag cfg s) (hI : InvQuota cfg s)
    (h : step cfg s a = some s') : InvQuota cfg s' := by
  cases a with
  | prod i r w =>
    simp only [step] at h
    split at h
    · rename_i hi
      exact invQuota_produtor hlim hi hF hI h
    · cases h
  | cons i w =>
    simp only [step] at h
    split at h
    · exact invQuota_consumidor hR hI h
    · cases h
  | principal => exact invQuota_main hI h
  | spurious_prod i =>
    obtain ⟨hd, ple, plt, peq⟩ := hI
    simp only [step] at h
    split at h
    · rename_i hp
      cases h
      refine ⟨hd, ple, ?_, ?_⟩
      all_goals
        intro k hk
        have pltk := plt k
        have peqk := peq k
        by_cases hki : k = i <;> simp_all
    · cases h
  | spurious_cons i =>
    obtain ⟨hd, ple, plt, peq⟩ := hI
    simp only [step] at h
    split at h
    · rename_i hp
      cases h
      refine ⟨?_, ple, plt, peq⟩
      intro k hk
      have hdk := hd k
      by_cases hki : k = i <;> simp_all
    · cases h

theorem reachable_invQuota {cfg : Config} (hC : 0 < cfg.MAX_PROD) (hl0 : 0 < cfg.LIMIT_PROD)
    (hlim : cfg.LIMIT_PROD < 2 ^ 32) {s : State} (h : Reachable cfg s) : InvQuota cfg s := by
  induction h with
  | init => constructor <;> simp [init, hl0]
  | step a hr hst ih =>
    exact invQuota_step hlim (reachable_invRing hC hr) (reachable_invFlag hr) ih hst

theorem invCount_produtor {cfg : Config} (hlim : cfg.LIMIT_PROD < 2 ^ 32) {i r : Nat}
    {w : Option Nat} {s s' : State} (hi : i < cfg.NUM_PROD) (hS : InvQuota cfg s)
    (hI : InvCount cfg s) (h : produtor cfg i r w s = some s') : InvCount cfg s' := by
  have hlt := hS.lt i
  unfold InvCount at hI ⊢
  have key : ∀ j, j ≠ i → feitos s' j = feitos s j := by
    intro j hj
    unfold produtor at h
    split at h
    all_goals (try split at h)
    all_goals cases h
    all_goals simp [feitos, hj]
  have hsum := soma_upd hi key
  unfold produtor at h
  split at h
  all_goals (try split at h)
  all_goals cases h
  all_goals simp_all [feitos]
  all_goals omega

theorem feitos_wake {s : State} {j : Nat} (hj : s.pcP j = .parked) (pcC : Nat → PcCons)
    (k : Nat) :
    feitos { s with pcP := upd s.pcP j .woken, pcC := pcC } k = feitos s k := by
  by_cases hk : k = j <;> simp_all [feitos]

theorem invCount_consumidor {cfg : Config} {i : Nat} {w : Option Nat} {s s' : State}
    (hI : InvCount cfg s) (h : consumidor cfg i w s = some s') : InvCount cfg s' := by
  unfold InvCount at hI ⊢
  unfold consumidor at h
  split at h
  all_goals (try split at h)
  all_goals (try (rename_i pcn hsig; rcases signal_prod_cases hsig with rfl | ⟨j, hj, rfl⟩))
  all_goals cases h
  all_goals
    first
    | exact hI
    | (rw [← hI]; exact soma_congr (fun k _ => feitos_wake hj _ k))

theorem invCount_main {cfg : Config} {s s' : State}
    (hI : InvCount cfg s) (h : main cfg s = some s') : InvCount cfg s' := by
  unfold InvCount at hI ⊢
  unfold main at h
  split at h
  all_goals (try split at h)
  all_goals (try split at h)
  all_goals cases h
  all_goals exact hI

theorem invCount_step {cfg : Config} (hlim : cfg.LIMIT_PROD < 2 ^ 32) {a : Action}
    {s s' : State} (hS : InvQuota cfg s) (hI : InvCount cfg s)
    (h : step cfg s a = some s') : InvCount cfg s' := by
  cases a with
  | prod i r w =>
    simp only [step] at h
    split at h
    · rename_i hi
      exact invCount_produtor hlim hi hS hI h
    · cases h
  | cons i w =>
    simp only [step] at h
    split at h
    · exact invCount_consumidor hI h
    · cases h
  | principal => exact invCount_main hI h
  | spurious_prod i =>
    simp only [step] at h
    split at h
    · rename_i hp
      cases h
      unfold InvCount at hI ⊢
      rw [← hI]
      exact soma_congr (fun k _ => feitos_wake hp _ k)
    · cases h
  | spurious_cons i =>
    simp only [step] at h
    split at h
    · cases h
      exact hI
    · cases h

theorem reachable_invCount {cfg : Config} (hC : 0 < cfg.MAX_PROD) (hl0 : 0 < cfg.LIMIT_PROD)
    (hlim : cfg.LIMIT_PROD < 2 ^ 32) {s : State} (h : Reachable cfg s) : InvCount cfg s := by
  induction h with
  | init =>
    unfold InvCount
    rw [@soma_const _ 0]
    · simp [init]
    · intro j _; simp [feitos, init]
  | step a hr hst ih => exact invCount_step hlim (reachable_invQuota hC hl0 hlim hr) ih hst

theorem ringData_inflight {C lp lc : Nat} {produtos : Nat → Int}
    {produced consumed : List (Nat × Int)}
    (h : RingData C lp lc produtos produced consumed) :
    (lp + C - lc) % C = produced.length - consumed.length := by
  obtain ⟨hp, hc, le, lt, -, -, -⟩ := h
  have hC : 0 < C := by omega
  have hlc : lc < C := by rw [hc]; exact Nat.mod_lt _ hC
  have h1 : (lp + C - lc) % C = (produced.length + (C - lc)) % C := by
    rw [hp, Nat.add_sub_assoc (Nat.le_of_lt hlc), Nat.mod_add_mod]
  have h2 : (produced.length + (C - lc)) % C
      = (produced.length - consumed.length + (consumed.length + (C - lc))) % C := by
    congr 1; omega
  have h3 : (consumed.length + (C - lc)) % C = 0 := by
    have hdm := Nat.div_add_mod consumed.length C
    rw [← hc] at hdm
    have : consumed.length + (C - lc) = C * (consumed.length / C + 1) := by
      rw [Nat.mul_add, Nat.mul_one]; omega
    rw [this, Nat.mul_mod_right]
  rw [h1, h2, Nat.add_mod, h3, Nat.add_zero, Nat.mod_mod]
  exact Nat.mod_eq_of_lt (by omega)

theorem ringData_int {C lp lc : Nat} {produtos : Nat → Int}
    {produced consumed : List (Nat × Int)}
    (h : RingData C lp lc produtos produced consumed) :
    ((lp : Int) - lc) % C = (produced.length : Int) - consumed.length := by
  obtain ⟨hp, hc, le, lt, -, -, -⟩ := h
  have e1 : ((lp : Int) - lc) % C = ((produced.length : Int) - consumed.length) % C := by
    rw [hp, hc]
    push_cast
    rw [Int.sub_emod, Int.emod_emod_of_dvd _ (dvd_refl _), Int.emod_emod_of_dvd _ (dvd_refl _),
      ← Int.sub_emod]
  rw [e1]
  exact Int.emod_eq_of_lt (by omega) (by omega)

theorem ringData_window {C lp lc : Nat} {produtos : Nat → Int}
    {produced consumed : List (Nat × Int)}
    (h : RingData C lp lc produtos produced consumed) :
    produced = consumed ++ (List.range ((lp + C - lc) % C)).map
      (fun k => ((lc + k) % C, produtos ((lc + k) % C))) := by
  have hin := ringData_inflight h
  obtain ⟨hp, hc, le, lt, pre, win, -⟩ := h
  rw [hin]
  have hsplit : produced = produced.take consumed.length ++ produced.drop consumed.length :=
    (List.take_append_drop _ _).symm
  rw [← pre] at hsplit
  have hdrop : produced.drop consumed.length =
      (List.range (produced.length - consumed.length)).map
        (fun k => ((lc + k) % C, produtos ((lc + k) % C))) := by
    apply List.ext_getElem?
    intro k
    by_cases hk : k < produced.length - consumed.length
    · rw [List.getElem?_drop, win _ (by omega) (by omega)]
      have hm : (consumed.length + k) % C = (lc + k) % C := by
        rw [hc, Nat.mod_add_mod]
      simp [hk, hm]
    · rw [List.getElem?_eq_none (by simp; omega), List.getElem?_eq_none (by simp; omega)]
  rw [← hdrop]
  exact hsplit

theorem window_positions {cfg : Config} {s : State} (hR : InvRing cfg s) :
    (∀ e, e ∈ window cfg s → e.1 ≠ s.len_prod) ∧ ((window cfg s).map Prod.fst).Nodup := by
  have hin := ringData_inflight hR.data
  obtain ⟨hp, hc, le, lt, -, -, -⟩ := hR.data
  constructor
  · intro e he
    simp only [window, inflight, List.mem_map, List.mem_range] at he
    obtain ⟨k, hk, rfl⟩ := he
    rw [hin] at hk
    simp only
    rw [hc, hp, Nat.mod_add_mod]
    exact mod_ne_of_lt (by omega) (by omega)
  · simp only [window, inflight, List.map_map]
    rw [hin]
    apply List.Nodup.map_on _ (List.nodup_range _)
    intro a ha b hb hab
    simp only [List.mem_range] at ha hb
    simp only [Function.comp] at hab
    rw [hc, Nat.mod_add_mod, Nat.mod_add_mod] at hab
    rcases Nat.lt_trichotomy a b with h | h | h
    · exact absurd hab (mod_ne_of_lt (by omega) (by omega))
    · exact h
    · exact absurd hab.symm (mod_ne_of_lt (by omega) (by omega))

/-- C1 (buffer bounds). For every capacity MAX_PROD of at least 2 and every
interleaving from len_prod = len_cons = 0: both indices stay below MAX_PROD, the
number of items in flight (entries of the produced log minus entries of the
consumed log) is between 0 and MAX_PROD - 1 and equals (len_prod - len_cons) mod
MAX_PROD; a producer about to write (line 57) sees a buffer that is not full and a
consumer about to read (line 108) sees one that is not empty. -/
theorem c1_buffer_bounds (cfg : Config) (hC : 2 ≤ cfg.MAX_PROD) (s : State)
    (h : Reachable cfg s) :
    s.len_prod < cfg.MAX_PROD ∧ s.len_cons < cfg.MAX_PROD ∧
    s.consumed.length ≤ s.produced.length ∧
    s.produced.length - s.consumed.length ≤ cfg.MAX_PROD - 1 ∧
    (s.produced.length : Int) - s.consumed.length
      = ((s.len_prod : Int) - s.len_cons) % cfg.MAX_PROD ∧
    (∀ i, s.pcP i = .l57 → (s.len_prod + 1) % cfg.MAX_PROD ≠ s.len_cons) ∧
    (∀ i, s.pcC i = .l108 → s.len_cons ≠ s.len_prod) := by
  have hR := reachable_invRing (by omega : 0 < cfg.MAX_PROD) h
  have hint := ringData_int hR.data
  obtain ⟨⟨hp, hc, le, lt, -, -, -⟩, h1, h2, -⟩ := hR
  refine ⟨?_, ?_, le, by omega, hint.symm, h1, h2⟩
  · rw [hp]; exact Nat.mod_lt _ (by omega)
  · rw [hc]; exact Nat.mod_lt _ (by omega)

/-- C2 (no loss, no duplication). In every reachable state the consumed log
(position and value of every read, in critical-section order) is an initial
segment of the produced log (position and value of every write, in
critical-section order); what was produced and not yet consumed is exactly the
content of the slots len_cons, len_cons + 1 mod MAX_PROD, ... up to but excluding
len_prod; these slots are pairwise distinct and none is the slot len_prod that the
next write goes to, so an item is read from the slot it was written to before
that slot is written again. -/
theorem c2_fifo_no_loss (cfg : Config) (hC : 2 ≤ cfg.MAX_PROD) (s : State)
    (h : Reachable cfg s) :
    s.consumed <+: s.produced ∧
    s.produced = s.consumed ++ window cfg s ∧
    (∀ e, e ∈ window cfg s → e.1 ≠ s.len_prod) ∧
    ((window cfg s).map Prod.fst).Nodup ∧
    (∀ k p v, s.produced[k]? = some (p, v) → p = k % cfg.MAX_PROD) := by
  have hR := reachable_invRing (by omega : 0 < cfg.MAX_PROD) h
  have hw : s.produced = s.consumed ++ window cfg s := ringData_window hR.data
  exact ⟨⟨_, hw.symm⟩, hw, (window_positions hR).1, (window_positions hR).2, hR.data.pos⟩

/-- C3 (shutdown never discards items). A consumer that is leaving consumidor
(lines 97-100) or has left it is in a state where the buffer is empty and
fim_flag is set; fim_flag is set only when every producer has returned; and when
all consumers have returned, the number of consume events equals the number of
produce events, which is NUM_PROD * LIMIT_PROD, and nothing is outstanding. -/
theorem c3_shutdown_drains (cfg : Config) (hC : 2 ≤ cfg.MAX_PROD)
    (hl0 : 0 < cfg.LIMIT_PROD) (hlim : cfg.LIMIT_PROD < 2 ^ 32) (hN : 0 < cfg.NUM_CONS)
    (s : State) (h : Reachable cfg s) :
    (∀ i, retC (s.pcC i) = true → s.len_cons = s.len_prod ∧ s.fim_flag = 1) ∧
    (s.fim_flag ≠ 0 → ∀ j, j < cfg.NUM_PROD → s.pcP j = .ret) ∧
    ((∀ i, i < cfg.NUM_CONS → s.pcC i = .ret) →
      s.consumed.length = s.produced.length ∧
      s.produced.length = cfg.NUM_PROD * cfg.LIMIT_PROD ∧
      window cfg s = []) := by
  have hC0 : 0 < cfg.MAX_PROD := by omega
  have hR := reachable_invRing hC0 h
  have hF := reachable_invFlag h
  have hQ := reachable_invQuota hC0 hl0 hlim h
  have hK := reachable_invCount hC0 hl0 hlim h
  refine ⟨?_, flag_all_returned hF, ?_⟩
  · intro i hi
    refine ⟨?_, hF.seen i hi⟩
    cases hp : s.pcC i <;> simp_all
    · exact hR.empty i (by rw [hp]; rfl)
    · exact hR.empty i (by rw [hp]; rfl)
    · exact hQ.drained i hp
  · intro hall
    have h0 := hall 0 hN
    have hflag : s.fim_flag ≠ 0 := by
      rw [hF.seen 0 (by rw [h0]; rfl)]; decide
    have hret := flag_all_returned hF hflag
    have hemp := hQ.drained 0 h0
    have hin := ringData_inflight hR.data
    have hzero : inflight cfg s = 0 := by
      unfold inflight
      rw [hemp, Nat.add_sub_cancel_left, Nat.mod_self]
    have hlen : s.consumed.length = s.produced.length := by
      have := hR.data.le
      unfold inflight at hzero
      omega
    refine ⟨hlen, ?_, ?_⟩
    · unfold InvCount at hK
      rw [← hK]
      apply soma_const
      intro j hj
      have := hQ.eq j (by rw [hret j hj]; rfl)
      simp [feitos, hret j hj, this]
    · simp [window, hzero]

/-- C4, as the code has it (no lost wakeup at shutdown). Main sets fim_flag under
fim_m only, and issues the broadcast later while holding mutex_m with the flag
already set; a consumer that has read the flag as unset (lines 102-104) keeps
mutex_m until it parks. Hence in every reachable state in which main has
completed the broadcast, no consumer that read the flag as unset is still on its
way to park, and no consumer is parked on cons_cond. -/
theorem c4_no_lost_wakeup (cfg : Config) (s : State) (h : Reachable cfg s) :
    ((s.pcM = .l170 ∨ s.pcM = .l171) → s.mutex_m = some .principal ∧ s.fim_flag = 1) ∧
    (∀ i, s.pcC i = .l102 ∨ s.pcC i = .l104 → s.mutex_m = some (.cons i)) ∧
    (afterB s.pcM = true →
      ∀ i, s.pcC i ≠ .l102 ∧ s.pcC i ≠ .l104 ∧ s.pcC i ≠ .parked) := by
  have hL := reachable_invLock h
  have hF := reachable_invFlag h
  refine ⟨?_, ?_, ?_⟩
  · intro hpc
    rcases hpc with hpc | hpc
    · exact ⟨hL.principal (by rw [hpc]; rfl), hF.flag1 (by rw [hpc]; rfl)⟩
    · exact ⟨hL.principal (by rw [hpc]; rfl), hF.flag1 (by rw [hpc]; rfl)⟩
  · intro i hi
    rcases hi with hi | hi
    · exact hL.cons i (by rw [hi]; rfl)
    · exact hL.cons i (by rw [hi]; rfl)
  · intro hb i
    have := hF.woke i hb
    refine ⟨?_, ?_, ?_⟩ <;> intro hp <;> rw [hp] at this <;> simp at this

/-- Witness for C1: after producer 0 has written one item in the shipped program,
the indices are in range and one item is in flight. -/
theorem c1_buffer_bounds_witness :
    2 ≤ shipped.MAX_PROD ∧ Reachable shipped (run shipped init sched_item) ∧
    (run shipped init sched_item).len_prod < shipped.MAX_PROD ∧
    (run shipped init sched_item).len_cons < shipped.MAX_PROD ∧
    (run shipped init sched_item).consumed.length
      ≤ (run shipped init sched_item).produced.length ∧
    (run shipped init sched_item).produced.length
      - (run shipped init sched_item).consumed.length ≤ shipped.MAX_PROD - 1 :=
  have h := c1_buffer_bounds shipped (by decide) (run shipped init sched_item)
    (reachable_run_canal shipped sched_item init Reachable.init)
  ⟨by decide, reachable_run_canal shipped sched_item init Reachable.init,
    h.1, h.2.1, h.2.2.1, h.2.2.2.1⟩

/-- Witness for C2: after producer 0 has written one item in the shipped program,
the produced log is the consumed log followed by the content of the window. -/
theorem c2_fifo_no_loss_witness :
    2 ≤ shipped.MAX_PROD ∧ Reachable shipped (run shipped init sched_item) ∧
    (run shipped init sched_item).produced
      = (run shipped init sched_item).consumed ++ window shipped (run shipped init sched_item) :=
  ⟨by decide, reachable_run_canal shipped sched_item init Reachable.init,
    (c2_fifo_no_loss shipped (by decide) (run shipped init sched_item)
      (reachable_run_canal shipped sched_item init Reachable.init)).2.1⟩

/-- Witness for C3: at the end of the schedule sched_full of the shipped program
all 7 consumers have returned, and the number of consume events is the number of
produce events, 10 * 10. -/
theorem c3_shutdown_drains_witness :
    2 ≤ shipped.MAX_PROD ∧ 0 < shipped.LIMIT_PROD ∧ shipped.LIMIT_PROD < 2 ^ 32 ∧
    0 < shipped.NUM_CONS ∧ Reachable shipped (run shipped init sched_full) ∧
    (∀ i, i < shipped.NUM_CONS → (run shipped init sched_full).pcC i = .ret) ∧
    (run shipped init sched_full).consumed.length
      = (run shipped init sched_full).produced.length ∧
    (run shipped init sched_full).produced.length = shipped.NUM_PROD * shipped.LIMIT_PROD :=
  have hall : ∀ i, i < shipped.NUM_CONS → (run shipped init sched_full).pcC i = .ret := by
    decide!
  have h := (c3_shutdown_drains shipped (by decide) (by decide) (by decide) (by decide)
    (run shipped init sched_full)
    (reachable_run_canal shipped sched_full init Reachable.init)).2.2 hall
  ⟨by decide, by decide, by decide, by decide,
    reachable_run_canal shipped sched_full init Reachable.init, hall, h.1, h.2.1⟩

/-- C4 as stated fails: the set-flag-and-broadcast sequence of main is not atomic
with respect to mutex_m. After sched_shutdown main has set fim_flag and has not
yet broadcast (it is before the lock of line 169), and consumer 0 is inside its
mutex_m critical section. -/
theorem c4_set_flag_broadcast_not_atomic :
    ¬ (∀ s, Reachable shipped s → s.fim_flag = 1 → afterB s.pcM = false →
        ∀ i, s.mutex_m ≠ some (.cons i)) := by
  intro hall
  exact hall (run shipped init sched_shutdown)
    (reachable_run_canal shipped sched_shutdown init Reachable.init)
    (by decide!) (by decide!) 0 (by decide!)

/-- Witness for C4 as the code has it: at the end of sched_full main has passed
the broadcast and no consumer is parked. -/
theorem c4_no_lost_wakeup_witness :
    Reachable shipped (run shipped init sched_full) ∧
    afterB (run shipped init sched_full).pcM = true ∧
    ∀ i, (run shipped init sched_full).pcC i ≠ .l102 ∧
      (run shipped init sched_full).pcC i ≠ .l104 ∧
      (run shipped init sched_full).pcC i ≠ .parked :=
  have hb : afterB (run shipped init sched_full).pcM = true := by decide!
  ⟨reachable_run_canal shipped sched_full init Reachable.init, hb,
    (c4_no_lost_wakeup shipped (run shipped init sched_full)
      (reachable_run_canal shipped sched_full init Reachable.init)).2.2 hb⟩

end ProdCons

namespace LeitorEscritor
@[simp] theorem lendo_eqs :
    lendo .l40 = false ∧ lendo .l50 = false ∧ lendo .l53 = false ∧ lendo .parked = false ∧
    lendo .woken = false ∧ lendo .l56 = false ∧ lendo .l59 = false ∧ lendo .l61 = false ∧
    lendo .l64 = false ∧ lendo .l67 = false ∧ lendo .l70 = true ∧ lendo .l73 = true ∧
    lendo .l75 = false ∧ lendo .l78 = false ∧ lendo .l81 = false := by
  simp [lendo]

@[simp] theorem escrevendo_eqs :
    escrevendo .l92 = false ∧ escrevendo .l98 = false ∧ escrevendo .l100 = false ∧
    escrevendo .l103 = false ∧ escrevendo .l105 = true ∧ escrevendo .l108 = true ∧
    escrevendo .l111 = false ∧ escrevendo .l117 = false ∧ escrevendo .l120 = false ∧
    escrevendo .l123 = false := by
  simp [escrevendo]

@[simp] theorem readSec_eqs :
    readSec .l40 = false ∧ readSec .l50 = false ∧ readSec .l53 = false ∧
    readSec .parked = false ∧ readSec .woken = false ∧ readSec .l56 = false ∧
    readSec .l59 = false ∧ readSec .l61 = false ∧ readSec .l64 = false ∧ readSec .l67 = true ∧
    readSec .l70 = true ∧ readSec .l73 = true ∧ readSec .l75 = true ∧ readSec .l78 = true ∧
    readSec .l81 = false := by
  simp [readSec]

@[simp] theorem contado_eqs :
    contado .l40 = false ∧ contado .l50 = false ∧ contado .l53 = false ∧
    contado .parked = false ∧ contado .woken = false ∧ contado .l56 = false ∧
    contado .l59 = false ∧ contado .l61 = false ∧ contado .l64 = true ∧ contado .l67 = true ∧
    contado .l70 = true ∧ contado .l73 = true ∧ contado .l75 = true ∧ contado .l78 = false ∧
    contado .l81 = false := by
  simp [contado]

@[simp] theorem leitC_eqs :
    leitC .l40 = false ∧ leitC .l50 = false ∧ leitC .l53 = false ∧ leitC .parked = false ∧
    leitC .woken = false ∧ leitC .l56 = false ∧ leitC .l59 = false ∧ leitC .l61 = true ∧
    leitC .l64 = true ∧ leitC .l67 = true ∧ leitC .l70 = false ∧ leitC .l73 = false ∧
    leitC .l75 = true ∧ leitC .l78 = true ∧ leitC .l81 = true := by
  simp [leitC]

@[simp] theorem inanL_eqs :
    inanL .l40 = false ∧ inanL .l50 = true ∧ inanL .l53 = true ∧ inanL .parked = false ∧
    inanL .woken = false ∧ inanL .l56 = true ∧ inanL .l59 = false ∧ inanL .l61 = false ∧
    inanL .l64 = false ∧ inanL .l67 = false ∧ inanL .l70 = false ∧ inanL .l73 = false ∧
    inanL .l75 = false ∧ inanL .l78 = false ∧ inanL .l81 = false := by
  simp [inanL]

@[simp] theorem inanE_eqs :
    inanE .l92 = false ∧ inanE .l98 = true ∧ inanE .l100 = true ∧ inanE .l103 = false ∧
    inanE .l105 = false ∧ inanE .l108 = false ∧ inanE .l111 = false ∧ inanE .l117 = true ∧
    inanE .l120 = true ∧ inanE .l123 = true := by
  simp [inanE]

@[simp] theorem pendente_eqs :
    pendente .l92 = false ∧ pendente .l98 = false ∧ pendente .l100 = true ∧
    pendente .l103 = true ∧ pendente .l105 = true ∧ pendente .l108 = true ∧
    pendente .l111 = true ∧ pendente .l117 = true ∧ pendente .l120 = false ∧
    pendente .l123 = false := by
  simp [pendente]

@[simp] theorem heldByReader_eqs :
    (∀ k, heldByReader (some (.leitor k)) = true) ∧
    (∀ k, heldByReader (some (.escritor k)) = false) ∧ heldByReader none = false := by
  simp [heldByReader]

theorem ativos_le (cfg : Config) (s : State) : ativos cfg s ≤ cfg.NUM_LEIT := by
  unfold ativos
  apply soma_le
  intro j
  split <;> omega

theorem readSec_cases (p : PcLeitor) (h : readSec p = true) :
    contado p = true ∨ p = .l78 := by
  cases p <;> simp_all

theorem contado_zero {cfg : Config} {s : State} (hI : InvExcl cfg s)
    (hz : s.num_leitores = 0) (k : Nat) : contado (s.pcL k) = false := by
  by_cases hk : k < cfg.NUM_LEIT
  · have h0 := hI.count
    rw [hz] at h0
    have h1 := soma_zero h0.symm k hk
    by_contra hc
    simp only [Bool.not_eq_false] at hc
    simp [hc] at h1
  · simp [hI.idle k (by omega)]

theorem invExcl_leitor_count {cfg : Config} (hN : cfg.NUM_LEIT < 4294967296) {i : Nat}
    {s s' : State} (hi : i < cfg.NUM_LEIT) (hI : InvExcl cfg s) (h : leitor i s = some s') :
    s'.num_leitores = ativos cfg s' := by
  have cnt := hI.count
  have key : ∀ j, j ≠ i → (if contado (s'.pcL j) = true then (1 : Nat) else 0)
      = (if contado (s.pcL j) = true then (1 : Nat) else 0) := by
    intro j hj
    unfold leitor at h
    split at h
    all_goals (try split at h)
    all_goals first
      | (simp only [reduceCtorEq] at h; done)
      | (simp only [Option.some.injEq] at h; subst h)
    all_goals simp [hj]
  have hsum := @soma_upd cfg.NUM_LEIT i _ _ hi key
  simp only [ativos] at cnt ⊢
  have hb := ativos_le cfg s
  simp only [ativos] at hb
  have hinc : contado (s.pcL i) = false → s.num_leitores + 1 < 4294967296 := by
    intro hp
    have := @soma_lt cfg.NUM_LEIT i (fun i => if contado (s.pcL i) = true then 1 else 0) hi
      (fun j => by dsimp only; split <;> omega) (by simp [hp])
    omega
  have hdec : contado (s.pcL i) = true → 1 ≤ s.num_leitores := by
    intro hp
    have h1 := @soma_ge cfg.NUM_LEIT i (fun i => if contado (s.pcL i) = true then 1 else 0) hi
      (by simp [hp])
    omega
  clear key hI
  unfold leitor at h
  cases hpc : s.pcL i <;> simp only [hpc] at h
  all_goals (try split at h)
  all_goals first
    | (simp only [reduceCtorEq] at h; done)
    | (simp only [Option.some.injEq] at h; subst h)
  all_goals
    simp only [hpc, upd_same, contado_eqs] at hsum hinc hdec
    simp only [Bool.false_eq_true, if_false, if_true, true_implies, false_implies] at hsum hinc hdec
    dsimp only
    omega

theorem leitor_arith {cfg : Config} (hN : cfg.NUM_LEIT < 4294967296) {i : Nat} {s : State}
    (hi : i < cfg.NUM_LEIT) (hI : InvExcl cfg s) :
    (s.pcL i = .l61 → (((s.num_leitores + 1) % 4294967296 = 1 ↔ s.num_leitores = 0)
      ∧ (s.num_leitores + 1) % 4294967296 ≠ 0)) ∧
    (s.pcL i = .l75 → s.num_leitores ≠ 0) := by
  have cnt := hI.count
  have hb := ativos_le cfg s
  simp only [ativos] at cnt hb
  constructor
  · intro hp
    have := @soma_lt cfg.NUM_LEIT i (fun i => if contado (s.pcL i) = true then 1 else 0) hi
      (fun j => by dsimp only; split <;> omega) (by simp [hp])
    omega
  · intro hp
    have h1 := @soma_ge cfg.NUM_LEIT i (fun i => if contado (s.pcL i) = true then 1 else 0) hi
      (by simp [hp])
    omega

set_option maxHeartbeats 4000000 in
theorem invExcl_leitor {cfg : Config} (hN : cfg.NUM_LEIT < 4294967296) {i : Nat}
    {s s' : State} (hi : i < cfg.NUM_LEIT) (hI : InvExcl cfg s) (h : leitor i s = some s') :
    InvExcl cfg s' := by
  have hcount := invExcl_leitor_count hN hi hI h
  have hzero := contado_zero hI
  obtain ⟨h61, h75⟩ := leitor_arith hN hi hI
  obtain ⟨wr, rd, lt, fst, lst, fre, bsy, cnt, idl⟩ := hI
  have rdi := rd i
  have lti := lt i
  have fsti := fst i
  have lsti := lst i
  have bsyi := bsy i
  clear cnt
  refine ⟨?_, ?_, ?_, ?_, ?_, ?_, ?_, hcount, ?_⟩
  · intro k hk
    have wrk := wr k
    clear wr rd lt fst lst bsy idl hcount hzero h61 h75 lti fsti lsti fre bsyi
    unfold leitor at h
    cases hpc : s.pcL i <;> simp only [hpc] at h
    all_goals (try split at h)
    all_goals first
      | (simp only [reduceCtorEq] at h; done)
      | (simp only [Option.some.injEq] at h; subst h)
    all_goals simp_all
  · intro k hk
    have rdk := rd k
    have ltk := lt k
    have hzk := fun hz => hzero hz k
    have hrs := readSec_cases (s.pcL k)
    clear wr rd lt fst lst bsy idl hcount hzero
    unfold leitor at h
    cases hpc : s.pcL i <;> simp only [hpc] at h
    all_goals (try split at h)
    all_goals first
      | (simp only [reduceCtorEq] at h; done)
      | (simp only [Option.some.injEq] at h; subst h)
    all_goals (by_cases hki : k = i) <;> simp_all
  · intro k hk
    have ltk := lt k
    clear wr rd lt fst lst bsy idl hcount hzero h61 h75 rdi fsti lsti fre bsyi
    unfold leitor at h
    cases hpc : s.pcL i <;> simp only [hpc] at h
    all_goals (try split at h)
    all_goals first
      | (simp only [reduceCtorEq] at h; done)
      | (simp only [Option.some.injEq] at h; subst h)
    all_goals (by_cases hki : k = i) <;> simp_all
  · intro k hk
    have ltk := lt k
    have fstk := fst k
    clear wr rd lt fst lst bsy idl hcount hzero rdi fre bsyi
    unfold leitor at h
    cases hpc : s.pcL i <;> simp only [hpc] at h
    all_goals (try split at h)
    all_goals first
      | (simp only [reduceCtorEq] at h; done)
      | (simp only [Option.some.injEq] at h; subst h)
    all_goals (by_cases hki : k = i) <;> simp_all
  · intro k hk
    have ltk := lt k
    have lstk := lst k
    clear wr rd lt fst lst bsy idl hcount hzero rdi fre bsyi
    unfold leitor at h
    cases hpc : s.pcL i <;> simp only [hpc] at h
    all_goals (try split at h)
    all_goals first
      | (simp only [reduceCtorEq] at h; done)
      | (simp only [Option.some.injEq] at h; subst h)
    all_goals (by_cases hki : k = i) <;> simp_all
  · intro hl hn
    clear wr rd lt fst lst bsy idl hcount hzero
    unfold leitor at h
    cases hpc : s.pcL i <;> simp only [hpc] at h
    all_goals (try split at h)
    all_goals first
      | (simp only [reduceCtorEq] at h; done)
      | (simp only [Option.some.injEq] at h; subst h)
    all_goals simp_all
  · intro k hl hk hn
    have ltk := lt k
    have bsyk := bsy k
    clear wr rd lt fst lst bsy idl hcount hzero
    unfold leitor at h
    cases hpc : s.pcL i <;> simp only [hpc] at h
    all_goals (try split at h)
    all_goals first
      | (simp only [reduceCtorEq] at h; done)
      | (simp only [Option.some.injEq] at h; subst h)
    all_goals (by_cases hki : k = i) <;> simp_all
  · intro k hk
    have idlk := idl k hk
    have hne : k ≠ i := by omega
    clear wr rd lt fst lst bsy idl hcount hzero h61 h75 rdi lti fsti lsti fre bsyi
    unfold leitor at h
    cases hpc : s.pcL i <;> simp only [hpc] at h
    all_goals (try split at h)
    all_goals first
      | (simp only [reduceCtorEq] at h; done)
      | (simp only [Option.some.injEq] at h; subst h)
    all_goals simp_all

theorem broadcast_contado (pc : Nat → PcLeitor) (k : Nat) :
    contado (broadcast pc k) = contado (pc k) := by
  unfold broadcast
  split <;> simp_all

set_option maxHeartbeats 4000000 in
theorem invExcl_escritor {cfg : Config} {j r : Nat} {s s' : State}
    (hI : InvExcl cfg s) (h : escritor j r s = some s') : InvExcl cfg s' := by
  obtain ⟨wr, rd, lt, fst, lst, fre, bsy, cnt, idl⟩ := hI
  have wrj := wr j
  refine ⟨?_, ?_, ?_, ?_, ?_, ?_, ?_, ?_, ?_⟩
  · intro k hk
    have wrk := wr k
    clear wr rd lt fst lst bsy idl cnt fre
    unfold escritor at h
    cases hpc : s.pcE j <;> simp only [hpc] at h
    all_goals (try split at h)
    all_goals first
      | (simp only [reduceCtorEq] at h; done)
      | (simp only [Option.some.injEq] at h; subst h)
    all_goals (by_cases hkj : k = j) <;> simp_all
  · intro k hk
    have rdk := rd k
    clear wr rd lt fst lst bsy idl cnt fre
    unfold escritor at h
    cases hpc : s.pcE j <;> simp only [hpc] at h
    all_goals (try split at h)
    all_goals first
      | (simp only [reduceCtorEq] at h; done)
      | (simp only [Option.some.injEq] at h; subst h)
    all_goals (by_cases hkp : s.pcL k = .parked) <;> simp_all [broadcast]
  · intro k hk
    have ltk := lt k
    clear wr rd lt fst lst bsy idl cnt fre wrj
    unfold escritor at h
    cases hpc : s.pcE j <;> simp only [hpc] at h
    all_goals (try split at h)
    all_goals first
      | (simp only [reduceCtorEq] at h; done)
      | (simp only [Option.some.injEq] at h; subst h)
    all_goals (by_cases hkp : s.pcL k = .parked) <;> simp_all [broadcast]
  · intro k hk
    have fstk := fst k
    clear wr rd lt fst lst bsy idl cnt fre wrj
    unfold escritor at h
    cases hpc : s.pcE j <;> simp only [hpc] at h
    all_goals (try split at h)
    all_goals first
      | (simp only [reduceCtorEq] at h; done)
      | (simp only [Option.some.injEq] at h; subst h)
    all_goals (by_cases hkp : s.pcL k = .parked) <;> simp_all [broadcast]
  · intro k hk
    have lstk := lst k
    clear wr rd lt fst lst bsy idl cnt fre wrj
    unfold escritor at h
    cases hpc : s.pcE j <;> simp only [hpc] at h
    all_goals (try split at h)
    all_goals first
      | (simp only [reduceCtorEq] at h; done)
      | (simp only [Option.some.injEq] at h; subst h)
    all_goals (by_cases hkp : s.pcL k = .parked) <;> simp_all [broadcast]
  · intro hl hn
    clear wr rd lt fst lst bsy idl cnt
    unfold escritor at h
    cases hpc : s.pcE j <;> simp only [hpc] at h
    all_goals (try split at h)
    all_goals first
      | (simp only [reduceCtorEq] at h; done)
      | (simp only [Option.some.injEq] at h; subst h)
    all_goals simp_all
  · intro k hl hk hn
    have bsyk := bsy k
    clear wr rd lt fst lst bsy idl cnt fre
    unfold escritor at h
    cases hpc : s.pcE j <;> simp only [hpc] at h
    all_goals (try split at h)
    all_goals first
      | (simp only [reduceCtorEq] at h; done)
      | (simp only [Option.some.injEq] at h; subst h)
    all_goals (by_cases hkp : s.pcL k = .parked) <;> simp_all [broadcast]
  · clear wr rd lt fst lst bsy idl fre wrj
    unfold ativos at cnt ⊢
    unfold escritor at h
    cases hpc : s.pcE j <;> simp only [hpc] at h
    all_goals (try split at h)
    all_goals first
      | (simp only [reduceCtorEq] at h; done)
      | (simp only [Option.some.injEq] at h; subst h)
    all_goals first
      | exact cnt
      | (rw [cnt]; exact (soma_congr (fun k _ => by rw [broadcast_contado])).symm)
  · intro k hk
    have idlk := idl k hk
    clear wr rd lt fst lst bsy idl cnt fre wrj
    unfold escritor at h
    cases hpc : s.pcE j <;> simp only [hpc] at h
    all_goals (try split at h)
    all_goals first
      | (simp only [reduceCtorEq] at h; done)
      | (simp only [Option.some.injEq] at h; subst h)
    all_goals simp_all [broadcast]

theorem invExcl_step {cfg : Config} (hN : cfg.NUM_LEIT < 4294967296) {a : Action}
    {s s' : State} (hI : InvExcl cfg s) (h : step cfg s a = some s') : InvExcl cfg s' := by
  cases a with
  | leitor i =>
    simp only [step] at h
    split at h
    · rename_i hi
      exact invExcl_leitor hN hi hI h
    · simp at h
  | escritor j r =>
    simp only [step] at h
    split at h
    · exact invExcl_escritor hI h
    · simp at h
  | spurious i =>
    obtain ⟨wr, rd, lt, fst, lst, fre, bsy, cnt, idl⟩ := hI
    simp only [step] at h
    split at h
    · rename_i hp
      simp only [Option.some.injEq] at h
      subst h
      refine ⟨wr, ?_, ?_, ?_, ?_, fre, ?_, ?_, ?_⟩
      · intro k hk
        have := rd k
        by_cases hki : k = i <;> simp_all
      · intro k hk
        have := lt k
        by_cases hki : k = i <;> simp_all
      · intro k hk
        have := fst k
        by_cases hki : k = i <;> simp_all
      · intro k hk
        have := lst k
        by_cases hki : k = i <;> simp_all
      · intro k hl hk hn
        have := bsy k
        by_cases hki : k = i <;> simp_all
      · unfold ativos at cnt ⊢
        rw [cnt]
        apply (soma_congr _).symm
        intro k _
        by_cases hki : k = i <;> simp_all
      · intro k hk
        have := idl k hk
        by_cases hki : k = i <;> simp_all
    · simp at h

theorem reachable_invExcl {cfg : Config} (hN : cfg.NUM_LEIT < 4294967296) {s : State}
    (h : Reachable cfg s) : InvExcl cfg s := by
  induction h with
  | init =>
    have hc : ativos cfg init = 0 := by
      unfold ativos
      rw [@soma_const _ 0 _ (fun j _ => by simp [init]), Nat.mul_zero]
    refine ⟨?_, ?_, ?_, ?_, ?_, ?_, ?_, hc.symm, ?_⟩ <;> simp [init]
  | step a _ hst ih => exact invExcl_step hN ih hst

theorem pendentes_le (cfg : Config) (s : State) : pendentes cfg s ≤ cfg.NUM_ESCR := by
  unfold pendentes
  apply soma_le
  intro j
  split <;> omega

theorem invGate_escritor_count {cfg : Config} (hN : cfg.NUM_ESCR < 4294967296) {j r : Nat}
    {s s' : State} (hj : j < cfg.NUM_ESCR) (hI : InvGate cfg s)
    (h : escritor j r s = some s') : s'.locket_flag = pendentes cfg s' := by
  have cnt := hI.count
  have key : ∀ k, k ≠ j → (if pendente (s'.pcE k) = true then (1 : Nat) else 0)
      = (if pendente (s.pcE k) = true then (1 : Nat) else 0) := by
    intro k hk
    unfold escritor at h
    cases hpc : s.pcE j <;> simp only [hpc] at h
    all_goals (try split at h)
    all_goals first
      | (simp only [reduceCtorEq] at h; done)
      | (simp only [Option.some.injEq] at h; subst h)
    all_goals simp [hk]
  have hsum := @soma_upd cfg.NUM_ESCR j _ _ hj key
  simp only [pendentes] at cnt ⊢
  have hb := pendentes_le cfg s
  simp only [pendentes] at hb
  have hinc : pendente (s.pcE j) = false → s.locket_flag + 1 < 4294967296 := by
    intro hp
    have := @soma_lt cfg.NUM_ESCR j (fun k => if pendente (s.pcE k) = true then 1 else 0) hj
      (fun k => by dsimp only; split <;> omega) (by simp [hp])
    omega
  have hdec : pendente (s.pcE j) = true → 1 ≤ s.locket_flag := by
    intro hp
    have h1 := @soma_ge cfg.NUM_ESCR j (fun k => if pendente (s.pcE k) = true then 1 else 0) hj
      (by simp [hp])
    omega
  clear key hI
  unfold escritor at h
  cases hpc : s.pcE j <;> simp only [hpc] at h
  all_goals (try split at h)
  all_goals first
    | (simp only [reduceCtorEq] at h; done)
    | (simp only [Option.some.injEq] at h; subst h)
  all_goals
    simp only [hpc, upd_same, pendente_eqs] at hsum hinc hdec
    simp only [Bool.false_eq_true, if_false, if_true, true_implies, false_implies] at hsum hinc hdec
    dsimp only
    omega

set_option maxHeartbeats 4000000 in
theorem invGate_escritor {cfg : Config} (hN : cfg.NUM_ESCR < 4294967296) {j r : Nat}
    {s s' : State} (hj : j < cfg.NUM_ESCR) (hI : InvGate cfg s)
    (h : escritor j r s = some s') : InvGate cfg s' := by
  have hcount := invGate_escritor_count hN hj hI h
  obtain ⟨gl, ge, ps, cnt, idl⟩ := hI
  have gej := ge j
  clear cnt
  refine ⟨?_, ?_, ?_, hcount, ?_⟩
  · intro k hk
    have glk := gl k
    clear gl ge ps idl hcount
    unfold escritor at h
    cases hpc : s.pcE j <;> simp only [hpc] at h
    all_goals (try split at h)
    all_goals first
      | (simp only [reduceCtorEq] at h; done)
      | (simp only [Option.some.injEq] at h; subst h)
    all_goals (by_cases hkp : s.pcL k = .parked) <;> simp_all [broadcast]
  · intro k hk
    have gek := ge k
    clear gl ge ps idl hcount
    unfold escritor at h
    cases hpc : s.pcE j <;> simp only [hpc] at h
    all_goals (try split at h)
    all_goals first
      | (simp only [reduceCtorEq] at h; done)
      | (simp only [Option.some.injEq] at h; subst h)
    all_goals (by_cases hkj : k = j) <;> simp_all
  · intro k hk
    have glk := gl k
    have psk := ps k
    clear gl ge ps idl hcount
    unfold escritor at h
    cases hpc : s.pcE j <;> simp only [hpc] at h
    all_goals (try split at h)
    all_goals first
      | (simp only [reduceCtorEq] at h; done)
      | (simp only [Option.some.injEq] at h; subst h)
    all_goals (by_cases hkp : s.pcL k = .parked) <;> simp_all [broadcast]
  · intro k hk
    have idlk := idl k hk
    have hne : k ≠ j := by omega
    clear gl ge ps idl hcount
    unfold escritor at h
    cases hpc : s.pcE j <;> simp only [hpc] at h
    all_goals (try split at h)
    all_goals first
      | (simp only [reduceCtorEq] at h; done)
      | (simp only [Option.some.injEq] at h; subst h)
    all_goals simp_all

set_option maxHeartbeats 4000000 in
theorem invGate_leitor {cfg : Config} {i : Nat} {s s' : State}
    (hI : InvGate cfg s) (h : leitor i s = some s') : InvGate cfg s' := by
  obtain ⟨gl, ge, ps, cnt, idl⟩ := hI
  have gli := gl i
  refine ⟨?_, ?_, ?_, ?_, ?_⟩
  · intro k hk
    have glk := gl k
    clear gl ge ps idl cnt
    unfold leitor at h
    cases hpc : s.pcL i <;> simp only [hpc] at h
    all_goals (try split at h)
    all_goals first
      | (simp only [reduceCtorEq] at h; done)
      | (simp only [Option.some.injEq] at h; subst h)
    all_goals (by_cases hki : k = i) <;> simp_all
  · intro k hk
    have gek := ge k
    clear gl ge ps idl cnt
    unfold leitor at h
    cases hpc : s.pcL i <;> simp only [hpc] at h
    all_goals (try split at h)
    all_goals first
      | (simp only [reduceCtorEq] at h; done)
      | (simp only [Option.some.injEq] at h; subst h)
    all_goals simp_all
  · intro k hk
    have psk := ps k
    clear gl ge ps idl cnt
    unfold leitor at h
    cases hpc : s.pcL i <;> simp only [hpc] at h
    all_goals (try split at h)
    all_goals first
      | (simp only [reduceCtorEq] at h; done)
      | (simp only [Option.some.injEq] at h; subst h)
    all_goals (by_cases hki : k = i) <;> simp_all
  · clear gl ge ps idl gli
    unfold pendentes at cnt ⊢
    unfold leitor at h
    cases hpc : s.pcL i <;> simp only [hpc] at h
    all_goals (try split at h)
    all_goals first
      | (simp only [reduceCtorEq] at h; done)
      | (simp only [Option.some.injEq] at h; subst h)
    all_goals exact cnt
  · intro k hk
    have idlk := idl k hk
    clear gl ge ps idl cnt gli
    unfold leitor at h
    cases hpc : s.pcL i <;> simp only [hpc] at h
    all_goals (try split at h)
    all_goals first
      | (simp only [reduceCtorEq] at h; done)
      | (simp only [Option.some.injEq] at h; subst h)
    all_goals simp_all

theorem invGate_step {cfg : Config} (hN : cfg.NUM_ESCR < 4294967296) {a : Action}
    {s s' : State} (hI : InvGate cfg s) (h : step cfg s a = some s') : InvGate cfg s' := by
  cases a with
  | leitor i =>
    simp only [step] at h
    split at h
    · exact invGate_leitor hI h
    · simp at h
  | escritor j r =>
    simp only [step] at h
    split at h
    · rename_i hj
      exact invGate_escritor hN hj hI h
    · simp at h
  | spurious i =>
    obtain ⟨gl, ge, ps, cnt, idl⟩ := hI
    simp only [step] at h
    split at h
    · rename_i hp
      simp only [Option.some.injEq] at h
      subst h
      refine ⟨?_, ge, ?_, cnt, idl⟩
      · intro k hk
        have := gl k
        by_cases hki : k = i <;> simp_all
      · intro k hk
        have := ps k
        by_cases hki : k = i <;> simp_all
    · simp at h

theorem reachable_invGate {cfg : Config} (hN : cfg.NUM_ESCR < 4294967296) {s : State}
    (h : Reachable cfg s) : InvGate cfg s := by
  induction h with
  | init =>
    have hc : pendentes cfg init = 0 := by
      unfold pendentes
      rw [@soma_const _ 0 _ (fun j _ => by simp [init]), Nat.mul_zero]
    refine ⟨?_, ?_, ?_, hc.symm, ?_⟩ <;> simp [init]
  | step a _ hst ih => exact invGate_step hN ih hst

theorem reachable_run_leitor (cfg : Config) (as : List Action) :
    ∀ s, Reachable cfg s → Reachable cfg (run cfg s as) := by
  induction as with
  | nil => intro s h; exact h
  | cons a as ih =>
    intro s h
    simp only [run]
    cases hst : step cfg s a with
    | none => simpa using ih s h
    | some s' => simpa using ih s' (Reachable.step a h hst)

/-- C5 (exclusion on the shared cell). In no reachable state is a reader at its
read of critico (after the leitura_m unlock of line 67, before the leitura_m lock
of line 73) while a writer is inside its write section (lines 103-108), and in no
reachable state are two writers inside the write section. The reader counter is
a 32-bit unsigned int, so the number of readers is taken below 2^32. -/
theorem c5_reader_writer_exclusion (cfg : Config) (hN : cfg.NUM_LEIT < 4294967296)
    (s : State) (h : Reachable cfg s) :
    (∀ i j, ¬ (lendo (s.pcL i) = true ∧ escrevendo (s.pcE j) = true)) ∧
    (∀ j k, escrevendo (s.pcE j) = true → escrevendo (s.pcE k) = true → j = k) := by
  have hI := reachable_invExcl hN h
  constructor
  · rintro i j ⟨hr, hw⟩
    have h1 := hI.wr j hw
    have h2 := hI.rd i (by cases hp : s.pcL i <;> simp_all)
    rw [h1] at h2
    simp at h2
  · intro j k hj hk
    have h1 := hI.wr j hj
    have h2 := hI.wr k hk
    rw [h1] at h2
    simpa using h2

/-- C6 as stated fails: after sched_counter the counter num_leitores is 1 while
writer 0 is inside its write section (reader 0 has been counted at line 61 and is
blocked at the mutex_m lock of line 64). -/
theorem c6_counter_positive_while_writing :
    ¬ (∀ s, Reachable shipped s →
        ¬ (0 < s.num_leitores ∧ ∃ j, escrevendo (s.pcE j) = true)) := by
  intro hall
  refine hall (run shipped init sched_counter) (reachable_run_leitor _ _ _ Reachable.init) ⟨?_, 0, ?_⟩
  · decide
  · decide

/-- C6, as the code has it. While a writer is inside its write section no reader
is between its entry into and its exit from the read section (lines 67-78), and
num_leitores is 0, or it is 1 and the reader it counts is the first reader,
waiting at the mutex_m lock of line 64. -/
theorem c6_counter_exclusion (cfg : Config) (hN : cfg.NUM_LEIT < 4294967296)
    (s : State) (h : Reachable cfg s) (j : Nat) (hw : escrevendo (s.pcE j) = true) :
    (∀ i, readSec (s.pcL i) = false) ∧
    (s.num_leitores = 0 ∨
      (s.num_leitores = 1 ∧ ∃ i, i < cfg.NUM_LEIT ∧ s.pcL i = .l64)) := by
  have hI := reachable_invExcl hN h
  have hm := hI.wr j hw
  have hrd : ∀ i, readSec (s.pcL i) = false := by
    intro i
    by_contra hc
    have := hI.rd i (by simpa using hc)
    rw [hm] at this
    simp at this
  refine ⟨hrd, ?_⟩
  by_cases hz : s.num_leitores = 0
  · exact Or.inl hz
  · right
    have hc := hI.count
    unfold ativos at hc
    obtain ⟨i, hi, hne⟩ := soma_pos (by rw [← hc]; exact hz)
    have hci : contado (s.pcL i) = true := by
      by_contra hcon
      simp [hcon] at hne
    have h64 : s.pcL i = .l64 := by
      have := hrd i
      cases hp : s.pcL i <;> simp_all
    exact ⟨hI.first i h64, i, hi, h64⟩

/-- C7 (writer visibility). In every reachable state locket_flag is the number of
writers between the increment of line 98 and the decrement of line 117; a writer
about to decrement sees it at least 1, so it never underflows; a reader leaves
the wait loop of lines 50-54 only in a state where locket_flag is 0, that is,
where no writer is pending. The flag is a 32-bit unsigned int, so the number of
writers is taken below 2^32. -/
theorem c7_writer_visibility (cfg : Config) (hN : cfg.NUM_ESCR < 4294967296)
    (s : State) (h : Reachable cfg s) :
    s.locket_flag = pendentes cfg s ∧
    (∀ j, j < cfg.NUM_ESCR → s.pcE j = .l117 → 1 ≤ s.locket_flag) ∧
    (∀ i s', s.pcL i = .l50 → leitor i s = some s' → s'.pcL i = .l56 →
      s.locket_flag = 0 ∧ ∀ j, pendente (s.pcE j) = false) ∧
    (∀ i, s.pcL i = .l56 → s.locket_flag = 0 ∧ ∀ j, pendente (s.pcE j) = false) := by
  have hI := reachable_invGate hN h
  have hzero : s.locket_flag = 0 → ∀ j, pendente (s.pcE j) = false := by
    intro hz j
    by_cases hj : j < cfg.NUM_ESCR
    · have hc := hI.count
      rw [hz] at hc
      unfold pendentes at hc
      have h1 := soma_zero hc.symm j hj
      by_contra hcon
      simp only [Bool.not_eq_false] at hcon
      simp [hcon] at h1
    · simp [hI.idle j (by omega)]
  refine ⟨hI.count, ?_, ?_, ?_⟩
  · intro j hj hp
    have hc := hI.count
    unfold pendentes at hc
    rw [hc]
    exact soma_ge hj (by simp [hp])
  · intro i s' hp hs hp'
    have hz : s.locket_flag = 0 := by
      unfold leitor at hs
      simp only [hp] at hs
      split at hs
      · simp only [Option.some.injEq] at hs
        subst hs
        simp at hp'
      · rename_i hc
        simpa using hc
    exact ⟨hz, hzero hz⟩
  · intro i hp
    exact ⟨hI.passed i hp, hzero (hI.passed i hp)⟩

/-- Witness for C5: in the state after sched_counter of the shipped program,
where writer 0 is inside its write section, no reader is at its read. -/
theorem c5_reader_writer_exclusion_witness :
    shipped.NUM_LEIT < 4294967296 ∧ Reachable shipped (run shipped init sched_counter) ∧
    escrevendo ((run shipped init sched_counter).pcE 0) = true ∧
    ∀ i j, ¬ (lendo ((run shipped init sched_counter).pcL i) = true ∧
      escrevendo ((run shipped init sched_counter).pcE j) = true) :=
  ⟨by decide, reachable_run_leitor shipped sched_counter init Reachable.init, by decide,
    (c5_reader_writer_exclusion shipped (by decide) (run shipped init sched_counter)
      (reachable_run_leitor shipped sched_counter init Reachable.init)).1⟩

/-- Witness for C6 as the code has it: in the state after sched_counter of the
shipped program writer 0 is inside its write section, and the counter is 0, or 1
with the counted reader waiting at line 64. -/
theorem c6_counter_exclusion_witness :
    shipped.NUM_LEIT < 4294967296 ∧ Reachable shipped (run shipped init sched_counter) ∧
    escrevendo ((run shipped init sched_counter).pcE 0) = true ∧
    ((run shipped init sched_counter).num_leitores = 0 ∨
      ((run shipped init sched_counter).num_leitores = 1 ∧
        ∃ i, i < shipped.NUM_LEIT ∧ (run shipped init sched_counter).pcL i = .l64)) :=
  ⟨by decide, reachable_run_leitor shipped sched_counter init Reachable.init, by decide,
    (c6_counter_exclusion shipped (by decide) (run shipped init sched_counter)
      (reachable_run_leitor shipped sched_counter init Reachable.init) 0 (by decide)).2⟩

/-- Witness for C7: in the state after sched_counter of the shipped program
locket_flag is the number of pending writers. -/
theorem c7_writer_visibility_witness :
    shipped.NUM_ESCR < 4294967296 ∧ Reachable shipped (run shipped init sched_counter) ∧
    (run shipped init sched_counter).locket_flag
      = pendentes shipped (run shipped init sched_counter) :=
  ⟨by decide, reachable_run_leitor shipped sched_counter init Reachable.init,
    (c7_writer_visibility shipped (by decide) (run shipped init sched_counter)
      (reachable_run_leitor shipped sched_counter init Reachable.init)).1⟩

end LeitorEscritor

namespace Jantar
@[simp] theorem critJ_eqs :
    critJ .l74 = false ∧ critJ .l80 = true ∧ critJ .l83 = true ∧ critJ .parked = false ∧
    critJ .woken = false ∧ critJ .l86 = true ∧ critJ .l89 = false ∧ critJ .l96 = true ∧
    critJ .l99 = true ∧ critJ .l101 = true ∧ critJ .l105 = true ∧ critJ .l108 = false ∧
    critJ .l110 = false ∧ critJ .l113 = false ∧ critJ .l115 = true ∧ critJ .l117 = true ∧
    critJ .l120 = false ∧ critJ .l122 = true ∧ critJ .l124 = true ∧ critJ .l126 = true ∧
    critJ .l129 = false ∧ critJ .ret = false := by
  simp [critJ]

@[simp] theorem temEsq_eqs :
    temEsq .l74 = false ∧ temEsq .l80 = false ∧ temEsq .l83 = false ∧ temEsq .parked = false ∧
    temEsq .woken = false ∧ temEsq .l86 = true ∧ temEsq .l89 = true ∧ temEsq .l96 = true ∧
    temEsq .l99 = true ∧ temEsq .l101 = false ∧ temEsq .l105 = true ∧ temEsq .l108 = true ∧
    temEsq .l110 = true ∧ temEsq .l113 = true ∧ temEsq .l115 = true ∧ temEsq .l117 = false ∧
    temEsq .l120 = false ∧ temEsq .l122 = false ∧ temEsq .l124 = false ∧ temEsq .l126 = false ∧
    temEsq .l129 = false ∧ temEsq .ret = false := by
  simp [temEsq]

@[simp] theorem temDir_eqs :
    temDir .l74 = false ∧ temDir .l80 = false ∧ temDir .l83 = false ∧ temDir .parked = false ∧
    temDir .woken = false ∧ temDir .l86 = false ∧ temDir .l89 = false ∧ temDir .l96 = false ∧
    temDir .l99 = false ∧ temDir .l101 = false ∧ temDir .l105 = true ∧ temDir .l108 = true ∧
    temDir .l110 = true ∧ temDir .l113 = true ∧ temDir .l115 = true ∧ temDir .l117 = true ∧
    temDir .l120 = true ∧ temDir .l122 = true ∧ temDir .l124 = false ∧ temDir .l126 = false ∧
    temDir .l129 = false ∧ temDir .ret = false := by
  simp [temDir]

@[simp] theorem comendo_eqs :
    comendo .l74 = false ∧ comendo .l80 = false ∧ comendo .l83 = false ∧
    comendo .parked = false ∧ comendo .woken = false ∧ comendo .l86 = false ∧
    comendo .l89 = false ∧ comendo .l96 = false ∧ comendo .l99 = false ∧ comendo .l101 = false ∧
    comendo .l105 = false ∧ comendo .l108 = true ∧ comendo .l110 = true ∧
    comendo .l113 = false ∧ comendo .l115 = false ∧ comendo .l117 = false ∧
    comendo .l120 = false ∧ comendo .l122 = false ∧ comendo .l124 = false ∧
    comendo .l126 = false ∧ comendo .l129 = false ∧ comendo .ret = false := by
  simp [comendo]

@[simp] theorem esperando_eqs :
    esperando .l74 = false ∧ esperando .l80 = false ∧ esperando .l83 = true ∧
    esperando .parked = true ∧ esperando .woken = true ∧ esperando .l86 = false ∧
    esperando .l89 = false ∧ esperando .l96 = false ∧ esperando .l99 = false ∧
    esperando .l101 = false ∧ esperando .l105 = false ∧ esperando .l108 = false ∧
    esperando .l110 = false ∧ esperando .l113 = false ∧ esperando .l115 = false ∧
    esperando .l117 = false ∧ esperando .l120 = false ∧ esperando .l122 = false ∧
    esperando .l124 = false ∧ esperando .l126 = false ∧ esperando .l129 = false ∧
    esperando .ret = false := by
  simp [esperando]

@[simp] theorem pega_snd (hashi : Nat → Nat) (p : Nat) :
    (pega_hashi hashi p).2 = 0 ↔ hashi p = 0 := by
  unfold pega_hashi
  split <;> simp_all

@[simp] theorem pega_fst (hashi : Nat → Nat) (p : Nat) (h : ¬ hashi p = 0) :
    (pega_hashi hashi p).1 = upd hashi p 0 := by
  unfold pega_hashi
  simp [h]

theorem direita_lt (cfg : Config) (hK : 0 < cfg.NUM_FILOSOFOS) (i : Nat) :
    direita cfg i < cfg.NUM_FILOSOFOS :=
  Nat.mod_lt _ hK

theorem anterior_lt (cfg : Config) (hK : 0 < cfg.NUM_FILOSOFOS) (j : Nat) :
    anterior cfg j < cfg.NUM_FILOSOFOS :=
  Nat.mod_lt _ hK

theorem anterior_direita (cfg : Config) {i : Nat} (hi : i < cfg.NUM_FILOSOFOS) :
    anterior cfg (direita cfg i) = i := by
  unfold anterior direita
  by_cases h : i + 1 = cfg.NUM_FILOSOFOS
  · rw [h, Nat.mod_self, Nat.zero_add,
      Nat.mod_eq_of_lt (by omega : cfg.NUM_FILOSOFOS - 1 < cfg.NUM_FILOSOFOS)]
    omega
  · rw [Nat.mod_eq_of_lt (by omega : i + 1 < cfg.NUM_FILOSOFOS)]
    have : i + 1 + cfg.NUM_FILOSOFOS - 1 = i + cfg.NUM_FILOSOFOS := by omega
    rw [this, Nat.add_mod_right]
    exact Nat.mod_eq_of_lt hi

theorem direita_anterior (cfg : Config) {j : Nat} (hj : j < cfg.NUM_FILOSOFOS) :
    direita cfg (anterior cfg j) = j := by
  unfold anterior direita
  by_cases h : j = 0
  · subst h
    rw [Nat.zero_add, Nat.mod_eq_of_lt (by omega : cfg.NUM_FILOSOFOS - 1 < cfg.NUM_FILOSOFOS)]
    have : cfg.NUM_FILOSOFOS - 1 + 1 = cfg.NUM_FILOSOFOS := by omega
    rw [this, Nat.mod_self]
  · have : j + cfg.NUM_FILOSOFOS - 1 = (j - 1) + cfg.NUM_FILOSOFOS := by omega
    rw [this, Nat.add_mod_right, Nat.mod_eq_of_lt (by omega : j - 1 < cfg.NUM_FILOSOFOS)]
    have : j - 1 + 1 = j := by omega
    rw [this]
    exact Nat.mod_eq_of_lt hj

theorem signal_cases (pc : Nat → Pc) (r k : Nat) :
    signal pc r k = pc k ∨ (pc k = .parked ∧ signal pc r k = .woken) := by
  unfold signal
  split
  · by_cases hk : k = r
    · subst hk; right; simp_all
    · left; simp [hk]
  · left; rfl

set_option maxHeartbeats 4000000 in
theorem invJantar_jantar {cfg : Config} {i : Nat} {s s' : State}
    (hi : i < cfg.NUM_FILOSOFOS) (hI : InvJantar cfg s) (h : jantar cfg i s = some s') :
    InvJantar cfg s' := by
  have hK : 0 < cfg.NUM_FILOSOFOS := by omega
  have hr := direita_lt cfg hK i
  have har := anterior_direita cfg hi
  obtain ⟨lk, ow, fe, fd, zr, ex, idl⟩ := hI
  have lki := lk i
  have fei := fe i
  have fdi := fd i
  have zri := zr i hi
  have exi := ex i hi
  have zrr := zr (direita cfg i) hr
  have exr := ex (direita cfg i) hr
  rw [har] at zrr exr
  refine ⟨?_, ?_, ?_, ?_, ?_, ?_, ?_⟩
  · intro k hk
    have lkk := lk k
    have hsg := signal_cases s.pc (direita cfg i) k
    clear lk ow fe fd zr ex idl fei fdi zri exi zrr exr
    unfold jantar at h
    cases hpc : s.pc i <;> simp only [hpc] at h
    all_goals (try split at h)
    all_goals first
      | (simp only [reduceCtorEq] at h; done)
      | (simp only [Option.some.injEq] at h; subst h)
    all_goals (by_cases hki : k = i) <;> simp_all
    all_goals (rcases hsg with hsg | ⟨hsg1, hsg2⟩) <;> simp_all
  · intro k hk
    have owk := ow k
    have lkk := lk k
    have hsg := signal_cases s.pc (direita cfg i) k
    clear lk ow fe fd zr ex idl fei fdi zri exi zrr exr
    unfold jantar at h
    cases hpc : s.pc i <;> simp only [hpc] at h
    all_goals (try split at h)
    all_goals first
      | (simp only [reduceCtorEq] at h; done)
      | (simp only [Option.some.injEq] at h; subst h)
    all_goals (by_cases hki : k = i) <;> simp_all
    all_goals (rcases hsg with hsg | ⟨hsg1, hsg2⟩) <;> simp_all
  · intro k
    have fek := fe k
    have hsg := signal_cases s.pc (direita cfg i) k
    clear lk ow fe fd zr ex idl fdi zri exi zrr exr lki
    unfold jantar at h
    cases hpc : s.pc i <;> simp only [hpc] at h
    all_goals (try split at h)
    all_goals first
      | (simp only [reduceCtorEq] at h; done)
      | (simp only [Option.some.injEq] at h; subst h)
    all_goals (by_cases hki : k = i) <;> simp_all
    all_goals (rcases hsg with hsg | ⟨hsg1, hsg2⟩) <;> simp_all
  · intro k
    have fdk := fd k
    have hsg := signal_cases s.pc (direita cfg i) k
    clear lk ow fe fd zr ex idl fei zri exi zrr exr lki
    unfold jantar at h
    cases hpc : s.pc i <;> simp only [hpc] at h
    all_goals (try split at h)
    all_goals first
      | (simp only [reduceCtorEq] at h; done)
      | (simp only [Option.some.injEq] at h; subst h)
    all_goals (by_cases hki : k = i) <;> simp_all
    all_goals (rcases hsg with hsg | ⟨hsg1, hsg2⟩) <;> simp_all
  · intro j hj
    have zrj := zr j hj
    have exj := ex j hj
    have hant : anterior cfg j = i ↔ j = direita cfg i := by
      constructor
      · intro ha
        rw [← ha, direita_anterior cfg hj]
      · intro ha
        rw [ha, har]
    clear lk ow fe fd zr ex idl lki
    unfold jantar at h
    cases hpc : s.pc i <;> simp only [hpc] at h
    all_goals (try split at h)
    all_goals first
      | (simp only [reduceCtorEq] at h; done)
      | (simp only [Option.some.injEq] at h; subst h)
    all_goals first
      | exact zrj
      | (generalize direita cfg i = r at *
         generalize anterior cfg j = a at *
         (by_cases hji : j = i) <;> (by_cases hjr : j = r) <;> simp_all [devolver_hashi])
  · intro j hj
    have zrj := zr j hj
    have exj := ex j hj
    have hant : anterior cfg j = i ↔ j = direita cfg i := by
      constructor
      · intro ha
        rw [← ha, direita_anterior cfg hj]
      · intro ha
        rw [ha, har]
    clear lk ow fe fd zr ex idl lki
    unfold jantar at h
    cases hpc : s.pc i <;> simp only [hpc] at h
    all_goals (try split at h)
    all_goals first
      | (simp only [reduceCtorEq] at h; done)
      | (simp only [Option.some.injEq] at h; subst h)
    all_goals first
      | exact exj
      | (generalize direita cfg i = r at *
         generalize anterior cfg j = a at *
         (by_cases hji : j = i) <;> (by_cases hjr : j = r) <;> simp_all [devolver_hashi])
  · intro k hk
    have idk := idl k hk
    have hne : k ≠ i := by omega
    have hsg := signal_cases s.pc (direita cfg i) k
    clear lk ow fe fd zr ex idl fei fdi zri exi zrr exr lki
    unfold jantar at h
    cases hpc : s.pc i <;> simp only [hpc] at h
    all_goals (try split at h)
    all_goals first
      | (simp only [reduceCtorEq] at h; done)
      | (simp only [Option.some.injEq] at h; subst h)
    all_goals simp_all

theorem invJantar_step {cfg : Config} {a : Action} {s s' : State}
    (hI : InvJantar cfg s) (h : step cfg s a = some s') : InvJantar cfg s' := by
  cases a with
  | jantar i =>
    simp only [step] at h
    split at h
    · rename_i hi
      exact invJantar_jantar hi hI h
    · simp at h
  | spurious i =>
    obtain ⟨lk, ow, fe, fd, zr, ex, idl⟩ := hI
    simp only [step] at h
    split at h
    · rename_i hp
      simp only [Option.some.injEq] at h
      subst h
      refine ⟨?_, ?_, ?_, ?_, zr, ex, ?_⟩
      · intro k hk
        have := lk k
        by_cases hki : k = i <;> simp_all
      · intro k hk
        have := ow k
        by_cases hki : k = i <;> simp_all
      · intro k
        have := fe k
        by_cases hki : k = i <;> simp_all
      · intro k
        have := fd k
        by_cases hki : k = i <;> simp_all
      · intro k hk
        have := idl k hk
        by_cases hki : k = i <;> simp_all
    · simp at h

theorem memset_word_pos (n : Nat) (hn : 0 < n) : memset_word 1 n ≠ 0 := by
  cases n with
  | zero => omega
  | succ n => simp [memset_word]

theorem reachable_invJantar {cfg : Config} (hS : 0 < cfg.SIZE_T) {s : State}
    (h : Reachable cfg s) : InvJantar cfg s := by
  induction h with
  | init =>
    have := memset_word_pos cfg.SIZE_T hS
    refine ⟨?_, ?_, ?_, ?_, ?_, ?_, ?_⟩ <;> simp [init, this]
  | step a _ hst ih => exact invJantar_step ih hst

theorem reachable_run_jantar (cfg : Config) (as : List Action) :
    ∀ s, Reachable cfg s → Reachable cfg (run cfg s as) := by
  induction as with
  | nil => intro s h; exact h
  | cons a as ih =>
    intro s h
    simp only [run]
    cases hst : step cfg s a with
    | none => simpa using ih s h
    | some s' => simpa using ih s' (Reachable.step a h hst)

/-- C8 (no deadlock). For at least 2 philosophers and every interleaving: a
philosopher inside or about to enter pthread_cond_wait of line 83 holds no hashi;
a philosopher whose pega_hashi on the right hashi fails (line 96) still owns
mutex_m at line 99 and its next step gives the left hashi back before the mutex
is unlocked; and in no reachable state does every philosopher hold exactly one
hashi and have no step it can take. -/
theorem c8_no_deadlock (cfg : Config) (hK : 2 ≤ cfg.NUM_FILOSOFOS) (hS : 0 < cfg.SIZE_T)
    (s : State) (h : Reachable cfg s) :
    (∀ i, esperando (s.pc i) = true → s.esq i = false ∧ s.dir i = false) ∧
    (∀ i s1, s.pc i = .l96 → jantar cfg i s = some s1 → s1.dir i = false →
      s1.pc i = .l99 ∧ s1.mutex_m = some i ∧
      ∃ s2, jantar cfg i s1 = some s2 ∧ s2.mutex_m = some i ∧ s2.esq i = false ∧
        s2.hashi i = 1) ∧
    ¬ (∀ i, i < cfg.NUM_FILOSOFOS → um_so s i ∧ bloqueado cfg s i) := by
  have hI := reachable_invJantar hS h
  refine ⟨?_, ?_, ?_⟩
  · intro i hi
    have h1 := hI.fesq i
    have h2 := hI.fdir i
    cases hp : s.pc i <;> simp_all
  · intro i s1 hp hs hd
    have hm := hI.lock i (by rw [hp]; rfl)
    unfold jantar at hs
    simp only [hp] at hs
    split at hs
    · simp only [Option.some.injEq] at hs
      subst hs
      refine ⟨by simp, hm, ?_⟩
      refine ⟨{ s with
        hashi := devolver_hashi s.hashi i, esq := upd s.esq i false,
        pc := upd (upd s.pc i .l99) i .l101 }, by simp [jantar], ?_, ?_, ?_⟩
      · exact hm
      · simp
      · simp [devolver_hashi]
    · simp only [Option.some.injEq] at hs
      subst hs
      simp at hd
  · intro hall
    have h0 := hall 0 (by omega)
    have hpc : ∀ i, i < cfg.NUM_FILOSOFOS → s.pc i = .l89 ∨ s.pc i = .l120 := by
      intro i hi
      obtain ⟨hu, hb⟩ := hall i hi
      have h1 := hI.fesq i
      have h2 := hI.fdir i
      have h3 := hI.lock i
      unfold um_so at hu
      unfold bloqueado jantar at hb
      cases hp : s.pc i <;> simp_all <;> split at hb <;> simp_all
    have hm : s.mutex_m ≠ none := by
      have hb := (hall 0 (by omega)).2
      unfold bloqueado jantar at hb
      rcases hpc 0 (by omega) with hp | hp <;> simp_all
    cases hmm : s.mutex_m with
    | none => exact hm hmm
    | some m =>
      have hc := hI.owner m hmm
      by_cases hmk : m < cfg.NUM_FILOSOFOS
      · rcases hpc m hmk with hp | hp <;> simp [hp] at hc
      · simp [hI.idle m (by omega)] at hc

/-- C9 (mutual exclusion on the hashis). For at least 2 philosophers and every
interleaving: every hashi j is held by at most one philosopher; hashi[j] is 0
exactly when some philosopher holds j (and non-zero exactly when none does); and
two adjacent philosophers are never both in the eating section (lines 107-110). -/
theorem c9_hashi_exclusion (cfg : Config) (hK : 2 ≤ cfg.NUM_FILOSOFOS)
    (hS : 0 < cfg.SIZE_T) (s : State) (h : Reachable cfg s) :
    (∀ j i k, j < cfg.NUM_FILOSOFOS → i < cfg.NUM_FILOSOFOS → k < cfg.NUM_FILOSOFOS →
      segura cfg s i j → segura cfg s k j → i = k) ∧
    (∀ j, j < cfg.NUM_FILOSOFOS →
      (s.hashi j = 0 ↔ ∃ i, i < cfg.NUM_FILOSOFOS ∧ segura cfg s i j)) ∧
    (∀ i, i < cfg.NUM_FILOSOFOS →
      ¬ (comendo (s.pc i) = true ∧ comendo (s.pc (direita cfg i)) = true)) := by
  have hI := reachable_invJantar hS h
  have hK0 : 0 < cfg.NUM_FILOSOFOS := by omega
  refine ⟨?_, ?_, ?_⟩
  · intro j i k hj hi hk hsi hsk
    have hex := hI.excl j hj
    rcases hsi with ⟨e1, f1⟩ | ⟨e1, f1⟩ <;> rcases hsk with ⟨e2, f2⟩ | ⟨e2, f2⟩
    · omega
    · exfalso
      apply hex
      refine ⟨by rw [e1]; exact f1, ?_⟩
      rw [e2, anterior_direita cfg hk]
      exact f2
    · exfalso
      apply hex
      refine ⟨by rw [e2]; exact f2, ?_⟩
      rw [e1, anterior_direita cfg hi]
      exact f1
    · have := anterior_direita cfg hi
      have := anterior_direita cfg hk
      rw [e1] at e2
      simp_all
  · intro j hj
    rw [hI.zero j hj]
    constructor
    · intro hh
      rcases hh with hh | hh
      · exact ⟨j, hj, Or.inl ⟨rfl, hh⟩⟩
      · exact ⟨anterior cfg j, anterior_lt cfg hK0 j,
          Or.inr ⟨(direita_anterior cfg hj).symm, hh⟩⟩
    · rintro ⟨i, hi, hs⟩
      rcases hs with ⟨e1, f1⟩ | ⟨e1, f1⟩
      · left; rw [e1]; exact f1
      · right; rw [e1, anterior_direita cfg hi]; exact f1
  · rintro i hi ⟨h1, h2⟩
    have hr := direita_lt cfg hK0 i
    apply hI.excl (direita cfg i) hr
    rw [anterior_direita cfg hi]
    have e1 := hI.fdir i
    have e2 := hI.fesq (direita cfg i)
    constructor
    · rw [e2]
      cases hp : s.pc (direita cfg i) <;> simp_all
    · rw [e1]
      cases hp : s.pc i <;> simp_all

/-- Witness for C8: in the state after sched_mesa of the shipped program
philosophers 0 and 1 hold their left hashi, and not every philosopher both holds
exactly one hashi and is blocked. -/
theorem c8_no_deadlock_witness :
    2 ≤ shipped.NUM_FILOSOFOS ∧ 0 < shipped.SIZE_T ∧
    Reachable shipped (run shipped (init shipped) sched_mesa) ∧
    um_so (run shipped (init shipped) sched_mesa) 0 ∧
    ¬ (∀ i, i < shipped.NUM_FILOSOFOS →
      um_so (run shipped (init shipped) sched_mesa) i ∧
        bloqueado shipped (run shipped (init shipped) sched_mesa) i) :=
  ⟨by decide, by decide,
    reachable_run_jantar shipped sched_mesa (init shipped) Reachable.init,
    Or.inl ⟨by decide, by decide⟩,
    (c8_no_deadlock shipped (by decide) (by decide) (run shipped (init shipped) sched_mesa)
      (reachable_run_jantar shipped sched_mesa (init shipped) Reachable.init)).2.2⟩

/-- Witness for C9: in the state after sched_mesa of the shipped program hashi 0
is held by philosopher 0, and it is 0 exactly when some philosopher holds it. -/
theorem c9_hashi_exclusion_witness :
    2 ≤ shipped.NUM_FILOSOFOS ∧ 0 < shipped.SIZE_T ∧
    Reachable shipped (run shipped (init shipped) sched_mesa) ∧
    segura shipped (run shipped (init shipped) sched_mesa) 0 0 ∧
    ((run shipped (init shipped) sched_mesa).hashi 0 = 0 ↔
      ∃ i, i < shipped.NUM_FILOSOFOS ∧ segura shipped (run shipped (init shipped) sched_mesa) i 0) :=
  ⟨by decide, by decide,
    reachable_run_jantar shipped sched_mesa (init shipped) Reachable.init,
    Or.inl ⟨rfl, by decide⟩,
    (c9_hashi_exclusion shipped (by decide) (by decide) (run shipped (init shipped) sched_mesa)
      (reachable_run_jantar shipped sched_mesa (init shipped) Reachable.init)).2.1 0
      (by decide)⟩

/-- C10 fails on the code. The header comment calls hashi a binary vector (0 not
available, 1 available), but main initialises it with memset(&hashi, 1,
sizeof(hashi)), which stores the byte 1 in each of the 8 bytes of every element:
in the initial state hashi[0] is 0x0101010101010101, neither 0 nor 1. -/
theorem c10_hashi_not_binary_initially :
    Reachable shipped (init shipped) ∧
    (init shipped).hashi 0 = 72340172838076673 ∧
    ¬ ((init shipped).hashi 0 = 0 ∨ (init shipped).hashi 0 = 1) :=
  ⟨Reachable.init, by decide, by decide⟩

theorem signal_eq_l124 (pc : Nat → Pc) (r a : Nat) :
    signal pc r a = .l124 ↔ pc a = .l124 := by
  unfold signal
  split
  · by_cases ha : a = r
    · subst ha; simp_all
    · simp [ha]
  · rfl

theorem signal_self_ne (pc : Nat → Pc) (r : Nat) : signal pc r r ≠ .parked := by
  unfold signal
  split
  · simp
  · assumption

set_option maxHeartbeats 4000000 in
theorem invWake_jantar {cfg : Config} {i : Nat} {s s' : State}
    (hi : i < cfg.NUM_FILOSOFOS) (hJ : InvJantar cfg s) (hI : InvWake cfg s)
    (h : jantar cfg i s = some s') : InvWake cfg s' := by
  have har := anterior_direita cfg hi
  obtain ⟨lk, -, -, -, -, -, -⟩ := hJ
  obtain ⟨ts, pk⟩ := hI
  have lki := lk i
  have tsi := ts i hi
  refine ⟨?_, ?_⟩
  · intro k hk hp
    have tsk := ts k hk
    have lkk := lk k
    have hsg := signal_cases s.pc (direita cfg i) k
    clear lk ts pk
    unfold jantar at h
    cases hpc : s.pc i <;> simp only [hpc] at h
    all_goals (try split at h)
    all_goals first
      | (simp only [reduceCtorEq] at h; done)
      | (simp only [Option.some.injEq] at h; subst h)
    all_goals
      generalize direita cfg i = r at *
      (by_cases hki : k = i) <;> (by_cases hkr : k = r) <;> simp_all [devolver_hashi]
    all_goals (rcases hsg with hsg | ⟨hsg1, hsg2⟩) <;> simp_all
  · intro k hk hp
    have pkk := pk k hk
    have tsk := ts k hk
    have lkk := lk k
    have hsg := signal_cases s.pc (direita cfg i) k
    have hsa := signal_eq_l124 s.pc (direita cfg i) (anterior cfg k)
    have hss := signal_self_ne s.pc (direita cfg i)
    have hant : anterior cfg k = i ↔ k = direita cfg i := by
      constructor
      · intro ha
        rw [← ha, direita_anterior cfg hk]
      · intro ha
        rw [ha, har]
    clear lk ts pk
    unfold jantar at h
    cases hpc : s.pc i <;> simp only [hpc] at h
    all_goals (try split at h)
    all_goals first
      | (simp only [reduceCtorEq] at h; done)
      | (simp only [Option.some.injEq] at h; subst h)
    all_goals
      generalize direita cfg i = r at *
      generalize anterior cfg k = a at *
      (by_cases hki : k = i) <;> (by_cases hkr : k = r) <;> simp_all [devolver_hashi]

theorem invWake_step {cfg : Config} {a : Action} {s s' : State} (hJ : InvJantar cfg s)
    (hI : InvWake cfg s) (h : step cfg s a = some s') : InvWake cfg s' := by
  cases a with
  | jantar i =>
    simp only [step] at h
    split at h
    · rename_i hi
      exact invWake_jantar hi hJ hI h
    · simp at h
  | spurious i =>
    obtain ⟨ts, pk⟩ := hI
    simp only [step] at h
    split at h
    · rename_i hp
      simp only [Option.some.injEq] at h
      subst h
      refine ⟨?_, ?_⟩
      · intro k hk hpk
        have := ts k hk
        by_cases hki : k = i <;> simp_all
      · intro k hk hpk
        have := pk k hk
        by_cases hki : k = i <;> by_cases hai : anterior cfg k = i <;> simp_all
    · simp at h

theorem reachable_invWake {cfg : Config} (hS : 0 < cfg.SIZE_T) {s : State}
    (h : Reachable cfg s) : InvWake cfg s := by
  induction h with
  | init => constructor <;> simp [init]
  | step a hr hst ih => exact invWake_step (reachable_invJantar hS hr) ih hst

theorem jantar_crit_enabled (cfg : Config) (s : State) (m : Nat)
    (hc : critJ (s.pc m) = true) : ∃ s', jantar cfg m s = some s' := by
  unfold jantar
  cases hp : s.pc m <;> simp_all <;> split <;> exact ⟨_, rfl⟩

theorem jantar_free_enabled (cfg : Config) (s : State) (i : Nat) (hm : s.mutex_m = none)
    (hc : critJ (s.pc i) = false) (hp : s.pc i ≠ .parked) (hr : s.pc i ≠ .ret) :
    ∃ s', jantar cfg i s = some s' := by
  unfold jantar
  cases hpc : s.pc i <;> simp_all <;> split <;> exact ⟨_, rfl⟩

/-- C11 as stated fails: after sched_release philosopher 1 is parked on
hashi_cond[1], no signal has been issued for it, and hashi[1] is 1: its left
neighbour has executed devolver_hashi at line 122 and not yet the signal of line
124. -/
theorem c11_parked_while_available :
    ¬ (∀ s, Reachable shipped s → ∀ i, i < shipped.NUM_FILOSOFOS → s.pc i = .parked →
        s.hashi i = 0 ∧ s.dir (anterior shipped i) = true) := by
  intro hall
  have h1 := (hall (run shipped (init shipped) sched_release)
    (reachable_run_jantar shipped sched_release (init shipped) Reachable.init) 1
    (by decide) (by decide)).1
  revert h1
  decide

/-- C11, as the code has it (no lost wakeup although only the right-hand release
signals). For at least 2 philosophers and every interleaving: whenever
philosopher i is parked on hashi_cond[i] (no signal issued for it since it
parked), either hashi[i] is 0 and hashi i is held by philosopher (i - 1) mod K as
its right hashi, or philosopher (i - 1) mod K owns mutex_m at line 124, between
the devolver_hashi of line 122 and the signal, and its next step wakes i. In
every reachable state with a philosopher that has not finished, some philosopher
that has not finished is not parked, and some philosopher can take a step. -/
theorem c11_no_lost_wakeup (cfg : Config) (hK : 2 ≤ cfg.NUM_FILOSOFOS)
    (hS : 0 < cfg.SIZE_T) (s : State) (h : Reachable cfg s) :
    (∀ i, i < cfg.NUM_FILOSOFOS → s.pc i = .parked →
      (s.hashi i = 0 ∧ s.dir (anterior cfg i) = true ∧ direita cfg (anterior cfg i) = i) ∨
      (s.pc (anterior cfg i) = .l124 ∧ s.mutex_m = some (anterior cfg i) ∧
        ∃ s', jantar cfg (anterior cfg i) s = some s' ∧ s'.pc i = .woken)) ∧
    ((∃ i, i < cfg.NUM_FILOSOFOS ∧ s.pc i ≠ .ret) →
      ∃ i, i < cfg.NUM_FILOSOFOS ∧ s.pc i ≠ .ret ∧ s.pc i ≠ .parked) ∧
    ((∃ i, i < cfg.NUM_FILOSOFOS ∧ s.pc i ≠ .ret) →
      ∃ i, i < cfg.NUM_FILOSOFOS ∧ ∃ s', jantar cfg i s = some s') := by
  have hJ := reachable_invJantar hS h
  have hW := reachable_invWake hS h
  have hK0 : 0 < cfg.NUM_FILOSOFOS := by omega
  have hpark : ∀ i, i < cfg.NUM_FILOSOFOS → s.pc i = .parked →
      (s.hashi i = 0 ∧ s.dir (anterior cfg i) = true ∧ direita cfg (anterior cfg i) = i) ∨
      (s.pc (anterior cfg i) = .l124 ∧ s.mutex_m = some (anterior cfg i) ∧
        ∃ s', jantar cfg (anterior cfg i) s = some s' ∧ s'.pc i = .woken) := by
    intro i hi hp
    have hda := direita_anterior cfg hi
    rcases hW.parked i hi hp with hz | hl
    · left
      have he : s.esq i = false := by rw [hJ.fesq i, hp]; rfl
      have := (hJ.zero i hi).mp hz
      simp [he] at this
      exact ⟨hz, this, hda⟩
    · right
      refine ⟨hl, hJ.lock _ (by rw [hl]; rfl), ?_⟩
      have hne : i ≠ anterior cfg i := by
        intro he
        rw [← he, hp] at hl
        cases hl
      simp [jantar, hl, hda, signal, hp, hne]
  have hawake : (∃ i, i < cfg.NUM_FILOSOFOS ∧ s.pc i ≠ .ret) →
      ∃ i, i < cfg.NUM_FILOSOFOS ∧ s.pc i ≠ .ret ∧ s.pc i ≠ .parked := by
    rintro ⟨i, hi, hr⟩
    by_cases hp : s.pc i = .parked
    · have ha := anterior_lt cfg hK0 i
      refine ⟨anterior cfg i, ha, ?_⟩
      rcases hpark i hi hp with ⟨-, hd, -⟩ | ⟨hl, -, -⟩
      · rw [hJ.fdir] at hd
        cases hq : s.pc (anterior cfg i) <;> simp_all
      · simp [hl]
    · exact ⟨i, hi, hr, hp⟩
  refine ⟨hpark, hawake, ?_⟩
  intro hex
  cases hm : s.mutex_m with
  | some m =>
    have hc := hJ.owner m hm
    have hmk : m < cfg.NUM_FILOSOFOS := by
      by_contra hcon
      simp [hJ.idle m (by omega)] at hc
    exact ⟨m, hmk, jantar_crit_enabled cfg s m hc⟩
  | none =>
    obtain ⟨i, hi, hr, hp⟩ := hawake hex
    have hc : critJ (s.pc i) = false := by
      by_contra hcon
      have := hJ.lock i (by simpa using hcon)
      rw [hm] at this
      cases this
    exact ⟨i, hi, jantar_free_enabled cfg s i hm hc hp hr⟩

/-- Witness for C11 as the code has it: in the state after sched_release of the
shipped program philosopher 1 is parked, and its left neighbour, philosopher 0,
is at line 124 and wakes it with its next step. -/
theorem c11_no_lost_wakeup_witness :
    2 ≤ shipped.NUM_FILOSOFOS ∧ 0 < shipped.SIZE_T ∧
    Reachable shipped (run shipped (init shipped) sched_release) ∧
    (run shipped (init shipped) sched_release).pc 1 = .parked ∧
    (((run shipped (init shipped) sched_release).hashi 1 = 0 ∧
        (run shipped (init shipped) sched_release).dir (anterior shipped 1) = true ∧
        direita shipped (anterior shipped 1) = 1) ∨
      ((run shipped (init shipped) sched_release).pc (anterior shipped 1) = .l124 ∧
        (run shipped (init shipped) sched_release).mutex_m = some (anterior shipped 1) ∧
        ∃ s', jantar shipped (anterior shipped 1) (run shipped (init shipped) sched_release)
          = some s' ∧ s'.pc 1 = .woken)) :=
  ⟨by decide, by decide,
    reachable_run_jantar shipped sched_release (init shipped) Reachable.init, by decide,
    (c11_no_lost_wakeup shipped (by decide) (by decide)
      (run shipped (init shipped) sched_release)
      (reachable_run_jantar shipped sched_release (init shipped) Reachable.init)).1 1
      (by decide) (by decide)⟩

end Jantar

end Threads
